import Mathlib

/-!
Verification of the schema-union inference and generated-code transformation
pipeline of sdk-schema/sync-sdk-schema.py.

The development shallowly embeds the Python source:

* JSON documents (as produced by json.loads) are modelled by the `Json`
  inductive; Python dicts become ordered association lists, which matches
  the insertion-order semantics the script relies on.
* In-place mutation of the schema document is modelled by explicit
  state passing: every processing function takes the root document and
  returns the updated root document.  Positions inside the document are
  addressed by key paths, mirroring how the script reaches subobjects via
  aliases and "#/..." references.
* Exceptions (KeyError, AttributeError, AssertionError, RuntimeError, ...)
  are modelled with `Except String` / `Option`.
* The AST post-processing stage is modelled on a restricted statement
  language (`PyStmt`) covering the shapes produced by the external
  generator, which is the domain of the post-processing code.
-/

/-! ## Character/string helpers

String ops are reimplemented on `List Char` so that every definition is
structurally recursive and reduces inside the kernel.  Each helper models
the corresponding Python `str` method used by the source.
-/

/-- Python `s.endswith(suffix)`. -/
def strEndsWith (s suf : String) : Bool :=
  suf.data.isSuffixOf s.data

/-- Python `s.startswith(p)`. -/
def strStartsWith (s p : String) : Bool :=
  p.data.isPrefixOf s.data

/-- Python `s.removesuffix(suffix)`. -/
def pyRemoveSuffix (s suf : String) : String :=
  if strEndsWith s suf then String.mk (s.data.take (s.data.length - suf.data.length)) else s

/-- Split a character list on a separator character (Python `s.split(sep)`
for a one-character separator, which is the only form the source uses). -/
def splitOnChar (sep : Char) (l : List Char) : List (List Char) :=
  l.foldr
    (fun c acc =>
      match acc with
      | [] => [[c]]
      | cur :: rest => if c = sep then [] :: cur :: rest else (c :: cur) :: rest)
    [[]]

/-- Python `s.split("/")`, as the list of the parts. -/
def pySplitSlash (s : String) : List String :=
  (splitOnChar '/' s.data).map String.mk

/-- Python `p[0].upper() + p[1:]`; fails (IndexError) on an empty part. -/
def capFirst (p : String) : Except String String :=
  match p.data with
  | [] => .error "IndexError: string index out of range"
  | c :: cs => .ok (String.mk (c.toUpper :: cs))

/-- Python `s.capitalize()`: first character uppercased, rest lowercased. -/
def pyCapitalize (s : String) : String :=
  match s.data with
  | [] => s
  | c :: cs => String.mk (c.toUpper :: cs.map Char.toLower)

/-- Left-to-right, non-overlapping replacement on character lists.
The fuel is the length of the subject, which bounds the number of steps
(the source never calls `str.replace` with an empty pattern). -/
def replaceAuxF : Nat → List Char → List Char → List Char → List Char
  | 0, s, _, _ => s
  | _, [], _, _ => []
  | n + 1, c :: cs, pat, rep =>
    if pat ≠ [] ∧ pat.isPrefixOf (c :: cs) then
      rep ++ replaceAuxF n ((c :: cs).drop pat.length) pat rep
    else
      c :: replaceAuxF n cs pat rep

/-- Python `s.replace(pat, rep)` (for a non-empty pattern). -/
def pyReplace (s pat rep : String) : String :=
  String.mk (replaceAuxF s.data.length s.data pat.data rep.data)

/-- Containment of one character list in another. -/
def listContains (pat : List Char) : List Char → Bool
  | [] => pat.isEmpty
  | c :: cs => pat.isPrefixOf (c :: cs) || listContains pat cs

/-- Python substring containment (`pat in s`) for a non-empty `pat`. -/
def strContains (s pat : String) : Bool :=
  listContains pat.data s.data

/-- Code-point comparison of strings, as Python `<=` on `str`. -/
def charListLe : List Char → List Char → Bool
  | [], _ => true
  | _ :: _, [] => false
  | a :: as_, b :: bs =>
    if a < b then true
    else if b < a then false
    else charListLe as_ bs

/-- Python `sorted` on strings: stable insertion sort by code points. -/
def insertSorted (x : String) : List String → List String
  | [] => [x]
  | y :: ys => if charListLe x.data y.data then x :: y :: ys else y :: insertSorted x ys

/-- Python `sorted(names)` for a list of strings. -/
def pySorted (l : List String) : List String :=
  l.foldr insertSorted []

/-! ## JSON values -/

/-- JSON values as loaded by `json.loads`: objects are ordered association
lists (Python dicts preserve insertion order).  Numbers are modelled as
integers; no claim depends on numeric values. -/
inductive Json where
  | null
  | bool (b : Bool)
  | num (n : Int)
  | str (s : String)
  | arr (elems : List Json)
  | obj (fields : List (String × Json))

mutual

/-- Structural equality of JSON values (Python `==` on loaded JSON data;
objects produced by `json.loads` have unique keys, for which ordered
association-list equality agrees with Python dict equality at every
comparison the source performs). -/
def jeq : Json → Json → Bool
  | .null, .null => true
  | .bool a, .bool b => a == b
  | .num a, .num b => a == b
  | .str a, .str b => a == b
  | .arr a, .arr b => jeqList a b
  | .obj a, .obj b => jeqFields a b
  | _, _ => false

def jeqList : List Json → List Json → Bool
  | [], [] => true
  | x :: xs, y :: ys => jeq x y && jeqList xs ys
  | _, _ => false

def jeqFields : List (String × Json) → List (String × Json) → Bool
  | [], [] => true
  | (k, v) :: xs, (k2, v2) :: ys => k == k2 && jeq v v2 && jeqFields xs ys
  | _, _ => false

end

/-- Python dict lookup `d.get(k)` / `d[k]`: first binding of the key. -/
def lookupField (fields : List (String × Json)) (key : String) : Option Json :=
  match fields with
  | [] => none
  | (k, v) :: rest => if k = key then some v else lookupField rest key

/-- Python dict assignment `d[k] = v`: replaces in place (keeping the key's
position) if present, appends otherwise. -/
def setField (fields : List (String × Json)) (key : String) (v : Json) :
    List (String × Json) :=
  match fields with
  | [] => [(key, v)]
  | (k, w) :: rest => if k = key then (k, v) :: rest else (k, w) :: setField rest key v

/-- Python `d.setdefault(k, v)`: inserts only when the key is absent. -/
def setDefaultField (fields : List (String × Json)) (key : String) (v : Json) :
    List (String × Json) :=
  match lookupField fields key with
  | some _ => fields
  | none => fields ++ [(key, v)]

/-- Python `del d[k]`: fails (KeyError) when the key is absent. -/
def deleteField (fields : List (String × Json)) (key : String) :
    Option (List (String × Json)) :=
  match fields with
  | [] => none
  | (k, v) :: rest =>
    if k = key then some rest
    else (deleteField rest key).map (fun r => (k, v) :: r)

/-- Python truthiness of a JSON value (`if existing_ref:`). -/
def jsonTruthy : Json → Bool
  | .null => false
  | .bool b => b
  | .num n => n != 0
  | .str s => !s.isEmpty
  | .arr es => !es.isEmpty
  | .obj fs => !fs.isEmpty

/-- Read the object fields of a JSON value; any other shape is a Python
TypeError/AttributeError site. -/
def asObj : Json → Except String (List (String × Json))
  | .obj fs => .ok fs
  | _ => .error "TypeError: not a JSON object"

/-- Read the string payload of a JSON value. -/
def asStr : Json → Except String String
  | .str s => .ok s
  | _ => .error "TypeError: not a string"

/-- Navigate a key path through nested JSON objects (Python chained
`[...]` indexing); a missing key is a KeyError, indexing a non-object
with a string is a TypeError. -/
def getAtPath : Json → List String → Except String Json
  | j, [] => .ok j
  | .obj fs, k :: ks =>
    match lookupField fs k with
    | some v => getAtPath v ks
    | none => .error ("KeyError: " ++ k)
  | _, _ :: _ => .error "TypeError: not a JSON object"

/-- Apply an update at a key path; models in-place mutation of a nested
subobject reached through aliases. -/
def updateAtPath : Json → List String → (Json → Except String Json) → Except String Json
  | j, [], f => f j
  | .obj fs, k :: ks, f =>
    match lookupField fs k with
    | some v =>
      match updateAtPath v ks f with
      | .ok v2 => .ok (.obj (setField fs k v2))
      | .error e => .error e
    | none => .error ("KeyError: " ++ k)
  | _, _ :: _, _ => .error "TypeError: not a JSON object"

/-! ## Schema processing: `sync-sdk-schema.py` lines 103-335 -/

/-- `_resolve_json_ref` path computation: `ref.split("/")` must start with
`"#"` and have at least one further part (`ref_parts[1]` would raise
IndexError otherwise). -/
def refPathOf (ref : String) : Except String (List String) :=
  match pySplitSlash ref with
  | "#" :: p :: rest => .ok (p :: rest)
  | "#" :: [] => .error "IndexError: list index out of range"
  | _ => .error ("Only internal refs are supported, not " ++ ref)

/-- `_resolve_json_ref`: resolve an internal reference against the root
schema document. -/
def resolveJsonRef (jsonSchema : Json) (ref : String) : Except String Json :=
  match refPathOf ref with
  | .ok path => getAtPath jsonSchema path
  | .error e => .error e

/-- `_POTENTIAL_TAG_FIELDS`. -/
def potentialTagFields : List String := ["type", "success", "role", "code"]

/-- Outcome of `_check_discriminator`'s loop body for one entry: continue
to the next entry, return `False`, or raise. -/
inductive EntryVerdict where
  | passes
  | stopFalse
  | raises (msg : String)

/-- The loop body of `_check_discriminator` (lines 117-132) for one union
entry: `entry.get("properties")` (AttributeError on a non-object entry,
and `None` both for an absent key and for a JSON null value), then
`properties.get(tag_field)` (AttributeError unless the properties value is
an object), then `field_def["type"]` (TypeError/KeyError unless the field
definition is an object with a "type" key), then `field_def.get("const")`;
the loop continues only when all checks pass. -/
def entryVerdict (tagField : String) (entry : Json) : EntryVerdict :=
  match entry with
  | .obj entryFields =>
    match lookupField entryFields "properties" with
    | none => .stopFalse
    | some .null => .stopFalse
    | some (.obj props) =>
      match lookupField props tagField with
      | none => .stopFalse
      | some .null => .stopFalse
      | some (.obj fieldDef) =>
        match lookupField fieldDef "type" with
        | none => .raises "KeyError: type"
        | some t =>
          if jeq t (.str "string") then
            match lookupField fieldDef "const" with
            | none => .stopFalse
            | some .null => .stopFalse
            | some _ => .passes
          else .stopFalse
      | some _ => .raises "TypeError: field definition is not an object"
    | some _ => .raises "AttributeError: properties value has no .get"
  | _ => .raises "AttributeError: union entry has no .get"

/-- `_check_discriminator`: run the per-entry checks over the union
members, returning `True` only when every entry passes. -/
def checkDiscriminator (tagField : String) : List Json → Except String Bool
  | [] => .ok true
  | entry :: rest =>
    match entryVerdict tagField entry with
    | .passes => checkDiscriminator tagField rest
    | .stopFalse => .ok false
    | .raises msg => .error msg

/-- `_make_spec_name`: `suffix.replace(".", "/").split("/")`, each part
`p[0].upper() + p[1:]` (IndexError on an empty part), concatenated onto the
parent name. -/
def makeSpecName (parentName suffix : String) : Except String String :=
  let parts := (splitOnChar '/' (suffix.data.map (fun c => if c = '.' then '/' else c))).map String.mk
  match parts.mapM capFirst with
  | .ok camelCased => .ok (parentName ++ String.join camelCased)
  | .error e => .error e

/-- `_merge_defs`: a no-op for `None`/empty new definitions, a RuntimeError
on a key collision, otherwise appends the new definitions. -/
def mergeDefs (existingDefs : List (String × Json)) (newDefs : Option (List (String × Json))) :
    Except String (List (String × Json)) :=
  match newDefs with
  | none => .ok existingDefs
  | some nd =>
    if nd.isEmpty then .ok existingDefs
    else if nd.any (fun p => (lookupField existingDefs p.1).isSome) then
      .error "RuntimeError: Duplicate extracted definitions"
    else .ok (existingDefs ++ nd)

/-- The "void" schema `{"not": {}}` from `_is_void_union`. -/
def voidSpec : Json := .obj [("not", .obj [])]

/-- The null schema `{"type": "null"}` from `_is_void_union`. -/
def nullSpec : Json := .obj [("type", .str "null")]

/-- Membership of a union member in `allows_omission = (void_spec, null_spec)`
(`member in allows_omission` uses Python `==`). -/
def allowsOmission (j : Json) : Bool :=
  jeq j voidSpec || jeq j nullSpec

/-- `_SchemaProcessor._is_void_union`: for a two-member union, returns the
single member that is not a "no value" encoding, if there is exactly one. -/
def isVoidUnion (unionMembers : List Json) : Option Json :=
  match unionMembers with
  | [first, second] =>
    if allowsOmission first then
      if !allowsOmission second then some second else none
    else if allowsOmission second then some first
    else none
  | _ => none

/-- The `f"{name.removesuffix('/returns')}ReturnValue"` definition name. -/
def returnValueName (name : String) : String :=
  pyRemoveSuffix name "/returns" ++ "ReturnValue"

/-- `_SchemaProcessor._process_rpc_result_union`: when `_is_void_union`
identifies a result payload, produces the rewritten member list
`[{"$ref": ...ReturnValue}, {"type": "null"}]` together with the
synthesized definition name and schema. -/
def processRpcResultUnion (name : String) (unionMemberSpecs : List Json) :
    Option (List Json × String × Json) :=
  match isVoidUnion unionMemberSpecs with
  | none => none
  | some resultSpec =>
    let resultSpecName := returnValueName name
    let resultSpecRef := "#/definitions/" ++ resultSpecName
    some ([Json.obj [("$ref", .str resultSpecRef)], nullSpec], resultSpecName, resultSpec)

/-- Python dict assignment for a string-valued dict (the discriminator
map `dict[str, str]`). -/
def setStrField (fields : List (String × String)) (key v : String) :
    List (String × String) :=
  match fields with
  | [] => [(key, v)]
  | (k, w) :: rest => if k = key then (k, v) :: rest else (k, w) :: setStrField rest key v

/-- `tag_spec.setdefault("default", tag_value)` followed by
`tag_spec.setdefault("title", tag_title)` (lines 242-244). -/
def applyTagDefaults (tagSpec : List (String × Json)) (tagValue : Json) (tagTitle : String) :
    List (String × Json) :=
  setDefaultField (setDefaultField tagSpec "default" tagValue) "title" (.str tagTitle)

/-- Per-member data prepared before the discriminated-union loop: the
member's ref string and resolved path when `member_spec.get("$ref")` is
truthy, and the member spec itself. -/
def preparedMember (doc : Json) (m : Json) :
    Except String (Option (String × List String) × Json) :=
  match m with
  | .obj mFields =>
    match lookupField mFields "$ref" with
    | some v =>
      if jsonTruthy v then
        match v with
        | .str r =>
          match refPathOf r with
          | .ok rp =>
            match getAtPath doc rp with
            | .ok _ => .ok (some (r, rp), m)
            | .error e => .error e
          | .error e => .error e
        | _ => .error "AttributeError: ref is not a string"
      else .ok (none, m)
    | none => .ok (none, m)
  | _ => .error "AttributeError: union member has no .get"

/-- The resolved spec of a prepared member: the ref target for a reference
member, the member itself for an anonymous member. -/
def resolvedOf (doc : Json) (p : Option (String × List String) × Json) : Except String Json :=
  match p.1 with
  | some (_, rp) => getAtPath doc rp
  | none => .ok p.2

/-- First candidate tag field for which `_check_discriminator` succeeds
(lines 212-215). -/
def findDiscriminator (candidates : List String) (resolvedSpecs : List Json) :
    Except String (Option String) :=
  match candidates with
  | [] => .ok none
  | f :: fs =>
    match checkDiscriminator f resolvedSpecs with
    | .ok true => .ok (some f)
    | .ok false => findDiscriminator fs resolvedSpecs
    | .error e => .error e

/-- The per-member loop of `_extract_union_variants` (lines 226-244),
threading the document (reference members' tag specs are mutated through
the document), the accumulated new definitions, the discriminator map and
producing the updated member slots.

For a reference member the slot is left unchanged and the ref target's tag
spec receives the `setdefault` updates; for an anonymous member the member
(with its tag spec updated) becomes a new definition and the slot becomes a
`$ref` to it.  Discriminator-map keys must be strings; this is where the
embedding requires what the source only needs later (a non-string constant
tag value would crash `_make_spec_name` for anonymous members and
serialization for reference members). -/
def processVariants (d tagTitle specName : String) (doc : Json)
    (newDefs : List (String × Json)) (discMap : List (String × String)) :
    List (Option (String × List String) × Json) →
    Except String (Json × List (String × Json) × List (String × String) × List Json)
  | [] => .ok (doc, newDefs, discMap, [])
  | (some (r, rp), m) :: rest =>
    -- tag_spec = resolved_spec["properties"][discriminator]; tag_value = tag_spec["const"]
    (match getAtPath doc (rp ++ ["properties", d]) with
     | .error e => .error e
     | .ok tagSpecJ =>
       match tagSpecJ with
       | .obj tagSpec =>
         match lookupField tagSpec "const" with
         | none => .error "KeyError: const"
         | some tagValue =>
           match tagValue with
           | .str tvs =>
             match updateAtPath doc (rp ++ ["properties", d])
                 (fun j =>
                   match j with
                   | .obj ts => .ok (.obj (applyTagDefaults ts tagValue tagTitle))
                   | _ => .error "TypeError: tag spec is not an object") with
             | .error e => .error e
             | .ok doc2 =>
               match processVariants d tagTitle specName doc2 newDefs
                   (setStrField discMap tvs r) rest with
               | .error e => .error e
               | .ok (doc3, nd, mp, slots) => .ok (doc3, nd, mp, m :: slots)
           | _ => .error "TypeError: non-string tag value"
       | _ => .error "TypeError: tag spec is not an object")
  | (none, m) :: rest =>
    (match m with
     | .obj mFields =>
       match lookupField mFields "properties" with
       | none => .error "KeyError: properties"
       | some propsJ =>
         match propsJ with
         | .obj props =>
           match lookupField props d with
           | none => .error ("KeyError: " ++ d)
           | some tagSpecJ =>
             match tagSpecJ with
             | .obj tagSpec =>
               match lookupField tagSpec "const" with
               | none => .error "KeyError: const"
               | some tagValue =>
                 match tagValue with
                 | .str tvs =>
                   match makeSpecName specName tvs with
                   | .error e => .error e
                   | .ok newSpecName =>
                     let specRef := "#/definitions/" ++ newSpecName
                     let m2 : Json := .obj (setField mFields "properties"
                       (.obj (setField props d (.obj (applyTagDefaults tagSpec tagValue tagTitle)))))
                     match processVariants d tagTitle specName doc
                         (setField newDefs newSpecName m2)
                         (setStrField discMap tvs specRef) rest with
                     | .error e => .error e
                     | .ok (doc3, nd, mp, slots) =>
                       .ok (doc3, nd, mp, Json.obj [("$ref", .str specRef)] :: slots)
                 | _ => .error "AttributeError: non-string tag value"
             | _ => .error "TypeError: tag spec is not an object"
         | _ => .error "TypeError: properties is not an object"
     | _ => .error "TypeError: union member is not an object")

/-- The Python match pattern `case {"anyOf": [*_]}`: an object whose
`"anyOf"` key holds a sequence. -/
def isAnyOfUnion (j : Json) : Bool :=
  match j with
  | .obj fs =>
    match lookupField fs "anyOf" with
    | some (.arr _) => true
    | _ => false
  | _ => false

/-- `_SchemaProcessor._extract_union_variants`: resolve the members,
look for a discriminator among the candidate tag fields, then either run
the discriminated-union loop (attaching the discriminator object and
rewriting anonymous members to references), fall back to the RPC-result
rewrite for `"/returns"` names, or leave the union untouched. -/
def extractUnionVariants (doc : Json) (path : List String) (name : String) :
    Except String (Json × Option (List (String × Json))) := do
  let specJ ← getAtPath doc path
  let spec ← asObj specJ
  let members ← match lookupField spec "anyOf" with
    | some (.arr ms) => Except.ok ms
    | some _ => Except.error "TypeError: anyOf is not a list"
    | none => Except.error "KeyError: anyOf"
  let prepared ← members.mapM (preparedMember doc)
  let resolvedSpecs ← prepared.mapM (resolvedOf doc)
  let disc ← findDiscriminator potentialTagFields resolvedSpecs
  match disc with
  | none =>
    if strEndsWith name "/returns" then
      match processRpcResultUnion name members with
      | none => Except.ok (doc, none)
      | some (newMembers, defName, defSpec) => do
        let doc2 ← updateAtPath doc path (fun sj => do
          let so ← asObj sj
          Except.ok (Json.obj (setField so "anyOf" (.arr newMembers))))
        Except.ok (doc2, some [(defName, defSpec)])
    else Except.ok (doc, none)
  | some d => do
    let tagTitle := pyCapitalize d
    let (doc2, newDefs, discMap, slots) ← processVariants d tagTitle name doc [] [] prepared
    let doc3 ← updateAtPath doc2 path (fun sj => do
      let so ← asObj sj
      let so2 := setField so "anyOf" (.arr slots)
      Except.ok (Json.obj (setField so2 "discriminator"
        (.obj [("mapping", .obj (discMap.map (fun p => (p.1, Json.str p.2)))),
               ("propertyName", .str d)]))))
    Except.ok (doc3, some newDefs)

/-- Shape dispatch of `_process_subschema` (the `match spec:` cases after
the union case, tried in source order). -/
inductive SubShape where
  | arrayItems
  | objectProps (fieldDefs : List (String × Json))
  | other

/-- Classify a non-union subschema: `{"type": "array", "items": {}}`,
`{"type": "object", "properties": {}}`, or anything else. -/
def subschemaShape (j : Json) : SubShape :=
  match j with
  | .obj fs =>
    if jeq ((lookupField fs "type").getD Json.null) (Json.str "array") then
      match lookupField fs "items" with
      | some (.obj _) => SubShape.arrayItems
      | _ => SubShape.other
    else if jeq ((lookupField fs "type").getD Json.null) (Json.str "object") then
      match lookupField fs "properties" with
      | some (.obj props) => SubShape.objectProps props
      | _ => SubShape.other
    else SubShape.other
  | _ => SubShape.other

mutual

/-- `_SchemaProcessor._process_subschema`.  The fuel only bounds the
recursion depth of the model (every recursive call decrements it); the
Python recursion is over the finite document tree. -/
def processSubschema : Nat → Json → List String → String →
    Except String (Json × Option (List (String × Json)))
  | 0, _, _, _ => .error "RecursionError: model fuel exhausted"
  | fuel + 1, doc, path, name => do
    let specJ ← getAtPath doc path
    if isAnyOfUnion specJ then do
      let (doc2, unionMemberDefs) ← extractUnionVariants doc path name
      match unionMemberDefs with
      | none => Except.ok (doc2, none)
      | some ds => do
        let namedUnionRef := "#/definitions/" ++ name
        let specCopy ← getAtPath doc2 path
        let doc3 ← updateAtPath doc2 path (fun _ => .ok (.obj [("$ref", .str namedUnionRef)]))
        let unionDefs ← mergeDefs [(name, specCopy)] (some ds)
        Except.ok (doc3, some unionDefs)
    else
      match subschemaShape specJ with
      | .arrayItems => processSubschema fuel doc (path ++ ["items"]) (name ++ "Item")
      | .objectProps fieldDefs =>
        processFields fuel doc path name (fieldDefs.map Prod.fst) []
      | .other => Except.ok (doc, none)

/-- The field loop of the object case of `_process_subschema`, iterating
the property names read on entry and merging the extracted definitions. -/
def processFields : Nat → Json → List String → String → List String → List (String × Json) →
    Except String (Json × Option (List (String × Json)))
  | 0, _, _, _, _, _ => .error "RecursionError: model fuel exhausted"
  | _ + 1, doc, _, _, [], acc => .ok (doc, some acc)
  | fuel + 1, doc, path, name, fieldName :: rest, acc => do
    let fieldSpecName ← makeSpecName name fieldName
    let (doc2, ds) ← processSubschema fuel doc (path ++ ["properties", fieldName]) fieldSpecName
    let acc2 ← mergeDefs acc ds
    processFields fuel doc2 path name rest acc2

end

/-- `_SchemaProcessor._process_named_spec`: named unions go through
`_extract_union_variants`, everything else through `_process_subschema`. -/
def processNamedSpec (fuel : Nat) (doc : Json) (path : List String) (name : String) :
    Except String (Json × Option (List (String × Json))) := do
  let specJ ← getAtPath doc path
  if isAnyOfUnion specJ then extractUnionVariants doc path name
  else processSubschema fuel doc path name

/-- `_EXCLUDE_EXPORTED_SCHEMAS`. -/
def excludeExportedSchemas : List String :=
  ["llmContextReferenceJsonFile", "llmContextReferenceYamlFile"]

/-- The `del schema_defs[excluded_def]` loop: KeyError if absent. -/
def deleteExcluded (defs : List (String × Json)) :
    List String → Except String (List (String × Json))
  | [] => .ok defs
  | k :: ks =>
    match deleteField defs k with
    | some d2 => deleteExcluded d2 ks
    | none => .error ("KeyError: " ++ k)

/-- The per-definition loop of `_process_schema`, iterating the
definition names present after the exclusion deletes and accumulating the
new definitions with `_merge_defs`. -/
def processDefsLoop (fuel : Nat) (doc : Json) (newDefs : List (String × Json)) :
    List String → Except String (Json × List (String × Json))
  | [] => .ok (doc, newDefs)
  | name :: rest => do
    let (doc2, ds) ← processNamedSpec fuel doc ["definitions", name] name
    let newDefs2 ← mergeDefs newDefs ds
    processDefsLoop fuel doc2 newDefs2 rest

/-- `_SchemaProcessor._process_schema` (the complete inference pass that
`infer_unions` runs once): delete the excluded definitions, process every
remaining definition, then merge the newly extracted definitions into the
document's definitions mapping. -/
def processSchema (fuel : Nat) (doc : Json) : Except String Json := do
  let defsJ ← getAtPath doc ["definitions"]
  let defs ← asObj defsJ
  let defs2 ← deleteExcluded defs excludeExportedSchemas
  let doc2 ← updateAtPath doc ["definitions"] (fun _ => .ok (.obj defs2))
  let names := defs2.map Prod.fst
  let (doc3, newDefs) ← processDefsLoop fuel doc2 [] names
  let curDefsJ ← getAtPath doc3 ["definitions"]
  let curDefs ← asObj curDefsJ
  let mergedDefs ← mergeDefs curDefs (some newDefs)
  updateAtPath doc3 ["definitions"] (fun _ => .ok (.obj mergedDefs))

/-! ## Generated-code post-processing: lines 338-607

The generated module is modelled by `PyStmt` lists restricted to the
statement shapes the external generator emits (class declarations whose
bodies are a docstring plus annotated fields, single-target assignments,
and other statements the post-processing ignores).  Name nodes, string
constants and `None` constants appear inside `PyExpr`.
-/

/-- Python expressions, restricted to the node shapes inspected by the
post-processing pass.  `ctx` marker nodes (`Load`/`Store`) are omitted:
`ast.walk` yields them but every match in the source skips them. -/
inductive PyExpr where
  | name (id : String)
  | constStr (s : String)
  | constNone
  | subscript (value : PyExpr) (index : PyExpr)
  | binOr (left right : PyExpr)
  | tuple (elts : List PyExpr)

/-- Top-level statements of the generated module: a class declaration
(name, optional leading docstring, annotated fields), a single-target
assignment, or any other statement the pass leaves untouched. -/
inductive PyStmt where
  | classDef (name : String) (docstring : Option String) (fields : List (String × PyExpr))
  | assign (target : String) (value : PyExpr)
  | other

/-- Lookup in a string-valued dict. -/
def lookupStr (m : List (String × String)) (k : String) : Option String :=
  match m with
  | [] => none
  | (k2, v) :: rest => if k2 = k then some v else lookupStr rest k

/-- `_DATA_MODEL_NAME_OVERRIDES`. -/
def dataModelNameOverrides : List (String × String) := [
  ("ChatMessageData", "AnyChatMessage"),
  ("ChatMessageDataUser", "UserMessage"),
  ("ChatMessageDataSystem", "SystemPrompt"),
  ("ChatMessageDataAssistant", "AssistantResponse"),
  ("ChatMessageDataTool", "ToolResultMessage"),
  ("ChatMessageDataUserDict", "UserMessageDict"),
  ("ChatMessageDataSystemDict", "SystemPromptDict"),
  ("ChatMessageDataAssistantDict", "AssistantResponseDict"),
  ("ChatMessageDataToolDict", "ToolResultMessageDict"),
  ("ChatMessagePartFileData", "FileHandle"),
  ("ChatMessagePartFileDataDict", "FileHandleDict"),
  ("ChatMessagePartTextData", "TextData"),
  ("ChatMessagePartTextDataDict", "TextDataDict"),
  ("ChatMessagePartToolCallRequestData", "ToolCallRequestData"),
  ("ChatMessagePartToolCallRequestDataDict", "ToolCallRequestDataDict"),
  ("ChatMessagePartToolCallResultData", "ToolCallResultData"),
  ("ChatMessagePartToolCallResultDataDict", "ToolCallResultDataDict"),
  ("FunctionToolCallRequest", "ToolCallRequest"),
  ("FunctionToolCallRequestDict", "ToolCallRequestDict"),
  ("LlmChannelPredictCreationParameter", "PredictionChannelRequest"),
  ("LlmChannelPredictCreationParameterDict", "PredictionChannelRequestDict"),
  ("RepositoryChannelDownloadModelCreationParameter", "DownloadModelChannelRequest"),
  ("RepositoryChannelDownloadModelCreationParameterDict", "DownloadModelChannelRequestDict"),
  ("PluginsChannelSetPromptPreprocessorToClientPacketPreprocess", "PromptPreprocessingRequest"),
  ("PluginsChannelSetPromptPreprocessorToClientPacketPreprocessDict", "PromptPreprocessingRequestDict"),
  ("PluginsChannelSetPromptPreprocessorToServerPacketAborted", "PromptPreprocessingAborted"),
  ("PluginsChannelSetPromptPreprocessorToServerPacketAbortedDict", "PromptPreprocessingAbortedDict"),
  ("PluginsChannelSetPromptPreprocessorToServerPacketComplete", "PromptPreprocessingComplete"),
  ("PluginsChannelSetPromptPreprocessorToServerPacketCompleteDict", "PromptPreprocessingCompleteDict"),
  ("PluginsChannelSetPromptPreprocessorToServerPacketError", "PromptPreprocessingError"),
  ("PluginsChannelSetPromptPreprocessorToServerPacketErrorDict", "PromptPreprocessingErrorDict"),
  ("LlmRpcGetLoadConfigReturns", "SerializedKVConfigSettings"),
  ("LlmRpcGetLoadConfigReturnsDict", "SerializedKVConfigSettingsDict")]

/-- `_DATA_MODEL_NAME_OVERRIDES.get(name, None)`. -/
def lookupOverride (n : String) : Option String :=
  lookupStr dataModelNameOverrides n

/-- A name with the override table applied (`override or the name itself`). -/
def overrideName (n : String) : String :=
  (lookupOverride n).getD n

mutual

/-- The `ast.walk` rename pass (lines 439-450) on expressions: every
`ast.Name` id and every `ast.Constant` string value found in the override
table is replaced. -/
def renameExpr (ov : String → Option String) : PyExpr → PyExpr
  | .name id => .name ((ov id).getD id)
  | .constStr s => .constStr ((ov s).getD s)
  | .constNone => .constNone
  | .subscript v i => .subscript (renameExpr ov v) (renameExpr ov i)
  | .binOr l r => .binOr (renameExpr ov l) (renameExpr ov r)
  | .tuple es => .tuple (renameExprList ov es)

def renameExprList (ov : String → Option String) : List PyExpr → List PyExpr
  | [] => []
  | e :: es => renameExpr ov e :: renameExprList ov es

end

/-- The `ast.walk` rename pass on a statement.  Field targets and assign
targets are `ast.Name` nodes and docstrings are `ast.Constant` nodes, so
the walk renames them exactly when they equal an overridden name; class
definition names are plain strings the walk does not touch. -/
def renameStmtWalk (ov : String → Option String) : PyStmt → PyStmt
  | .classDef n doc fields =>
    .classDef n (doc.map (fun d => (ov d).getD d))
      (fields.map (fun f => ((ov f.1).getD f.1, renameExpr ov f.2)))
  | .assign t v => .assign ((ov t).getD t) (renameExpr ov v)
  | .other => .other

/-- The whole-tree rename pass over the module. -/
def walkRenameModule (m : List PyStmt) : List PyStmt :=
  m.map (renameStmtWalk lookupOverride)

/-- Modelled from the source's `hasattr(builtins, name)` check: the
builtins-namespace membership, restricted to a representative set of
builtin type names (the only builtins identifiers that occur as generated
type aliases; no override key or generated class name is a builtin). -/
def builtinNames : List String :=
  ["str", "int", "float", "bool", "bytes", "bytearray", "complex", "list",
   "dict", "set", "frozenset", "tuple", "object", "type", "range", "slice",
   "memoryview"]

/-- Direct child nodes yielded by `ast.iter_child_nodes` (ctx markers
omitted, see `PyExpr`). -/
def pyChildren : PyExpr → List PyExpr
  | .name _ => []
  | .constStr _ => []
  | .constNone => []
  | .subscript v i => [v, i]
  | .binOr l r => [l, r]
  | .tuple es => es

mutual

/-- Node count of an expression (fuel measure for the walk). -/
def exprWeight : PyExpr → Nat
  | .name _ => 1
  | .constStr _ => 1
  | .constNone => 1
  | .subscript v i => 1 + exprWeight v + exprWeight i
  | .binOr l r => 1 + exprWeight l + exprWeight r
  | .tuple es => 1 + exprListWeight es

def exprListWeight : List PyExpr → Nat
  | [] => 0
  | e :: es => exprWeight e + exprListWeight es

end

/-- Breadth-first traversal queue step of `ast.walk`, with explicit fuel
(one unit per yielded node; `pyWalk` supplies exactly enough). -/
def pyWalkF : Nat → List PyExpr → List PyExpr
  | 0, _ => []
  | _, [] => []
  | n + 1, e :: q => e :: pyWalkF n (q ++ pyChildren e)

/-- `ast.walk(node)`: all descendant nodes (the node included) in
breadth-first order. -/
def pyWalk (roots : List PyExpr) : List PyExpr :=
  pyWalkF (exprListWeight roots) roots

/-- State accumulated by the union-member walk of lines 500-531. -/
structure UnionScan where
  namedUnionMembers : List String
  otherUnionMembers : List PyExpr
  optionalUnion : Bool
  needsDictAlias : Bool

/-- One `match union_child:` step of the union walk: names are collected
(and checked against DictTokenReplacements), `Mapping[...]` subscripts are
collected, a `None` constant marks an optional union, `BinOp`/`(str, str)`
tuples are structural, and anything else is a fatal RuntimeError. -/
def scanUnionChild (dictRepl : List (String × String)) (st : UnionScan) (child : PyExpr) :
    Except String UnionScan :=
  match child with
  | .name n =>
    .ok { st with
      namedUnionMembers := st.namedUnionMembers ++ [n],
      needsDictAlias := st.needsDictAlias || (lookupStr dictRepl n).isSome }
  | .subscript (.name "Mapping") _ =>
    .ok { st with otherUnionMembers := st.otherUnionMembers ++ [child] }
  | .constNone => .ok { st with optionalUnion := true }
  | .binOr _ _ => .ok st
  | .tuple [.name a, .name b] =>
    if a = "str" ∧ b = "str" then .ok st
    else .error "RuntimeError: Failed to parse union node"
  | _ => .error "RuntimeError: Failed to parse union node"

/-- The `for union_child in ast.walk(union_node):` loop. -/
def scanUnion (dictRepl : List (String × String)) (unionNode : PyExpr) :
    Except String UnionScan :=
  (pyWalk [unionNode]).foldlM (scanUnionChild dictRepl) ⟨[], [], false, false⟩

/-- Mutable state of the top-level loop of lines 452-563. -/
structure LoopState where
  declaredStructs : List String
  dictTokenReplacements : List (String × String)
  exportedNames : List String
  additionalNodes : List (Nat × PyStmt)

/-- Initial loop state. -/
def initLoopState : LoopState := ⟨[], [], [], []⟩

/-- The body of the top-level loop (lines 454-563) for one statement. -/
def processStmt (st : LoopState) (bodyIdx : Nat) (stmt : PyStmt) :
    Except String (PyStmt × LoopState) :=
  match stmt with
  | .classDef nm docstring fields =>
    let ov := lookupOverride nm
    let newName := ov.getD nm
    let exported := st.exportedNames ++ [newName]
    if strEndsWith newName "Dict" = false then
      .ok (.classDef newName docstring fields,
        { st with declaredStructs := st.declaredStructs ++ [newName],
                  exportedNames := exported })
    else
      let structName := pyRemoveSuffix newName "Dict"
      if st.declaredStructs.contains structName = false then
        .error ("AssertionError: " ++ structName)
      else
        let st2 := { st with
          dictTokenReplacements := setStrField st.dictTokenReplacements structName newName,
          exportedNames := exported }
        match ov with
        | none => .ok (.classDef newName docstring fields, st2)
        | some _ =>
          match docstring with
          | none => .error "AssertionError: class body does not start with a docstring"
          | some ds =>
            .ok (.classDef newName (some (pyReplace ds nm newName)) fields, st2)
  | .assign aliasName value =>
    match value with
    | .name n =>
      if builtinNames.contains n then
        .ok (stmt, { st with
          dictTokenReplacements := setStrField st.dictTokenReplacements aliasName n })
      else
        match lookupStr st.dictTokenReplacements n with
        | some dictName =>
          .ok (stmt, { st with
            dictTokenReplacements := setStrField st.dictTokenReplacements aliasName dictName })
        | none => .ok (stmt, st)
    | .subscript (.name "Annotated") (.tuple (PyExpr.name n :: _)) =>
      if builtinNames.contains n then
        .ok (stmt, { st with
          dictTokenReplacements := setStrField st.dictTokenReplacements aliasName n })
      else
        match lookupStr st.dictTokenReplacements n with
        | some dictName =>
          .ok (stmt, { st with
            dictTokenReplacements := setStrField st.dictTokenReplacements aliasName dictName })
        | none => .ok (stmt, st)
    | .binOr l r =>
      match scanUnion st.dictTokenReplacements (.binOr l r) with
      | .error e => .error e
      | .ok sc =>
        if sc.needsDictAlias then
          match sc.namedUnionMembers with
          | [] => .error "IndexError: list index out of range"
          | firstMember :: restMembers =>
            let dictAlias := aliasName ++ "Dict"
            let dictRepl2 := setStrField st.dictTokenReplacements aliasName dictAlias
            let dictUnion0 : PyExpr := .name ((lookupStr dictRepl2 firstMember).getD firstMember)
            let dictUnion1 := restMembers.foldl
              (fun acc mem => PyExpr.binOr acc (.name ((lookupStr dictRepl2 mem).getD mem)))
              dictUnion0
            let dictUnion2 := sc.otherUnionMembers.foldl
              (fun acc o => PyExpr.binOr acc o) dictUnion1
            let dictUnion3 := if sc.optionalUnion then PyExpr.binOr dictUnion2 .constNone
              else dictUnion2
            .ok (stmt, { st with
              dictTokenReplacements := dictRepl2,
              additionalNodes := st.additionalNodes ++
                [(bodyIdx + 1, PyStmt.assign dictAlias dictUnion3)] })
        else .ok (stmt, st)
    | _ => .ok (stmt, st)
  | .other => .ok (stmt, st)

/-- The top-level loop over `enumerate(model_ast.body)`. -/
def processTopLevel (st : LoopState) (bodyIdx : Nat) :
    List PyStmt → Except String (List PyStmt × LoopState)
  | [] => .ok ([], st)
  | s :: rest =>
    match processStmt st bodyIdx s with
    | .error e => .error e
    | .ok (s2, st2) =>
      match processTopLevel st2 (bodyIdx + 1) rest with
      | .error e => .error e
      | .ok (rest2, stF) => .ok (s2 :: rest2, stF)

/-- Python `body[n:n] = (x,)`: insert at an index (append when the index
is past the end). -/
def insertAt : Nat → PyStmt → List PyStmt → List PyStmt
  | 0, x, l => x :: l
  | _ + 1, x, [] => [x]
  | n + 1, x, y :: ys => y :: insertAt n x ys

/-- `for insertion_idx, node in reversed(additional_nodes): ...` (lines
566-567): the scheduled insertions applied from the highest index down. -/
def applyInsertions (body : List PyStmt) (nodes : List (Nat × PyStmt)) : List PyStmt :=
  nodes.reverse.foldl (fun b p => insertAt p.1 p.2 b) body

/-- The tree stage of `_generate_data_model_from_json_schema`
post-processing before insertions: the whole-tree rename followed by the
top-level loop. -/
def processModuleCore (m : List PyStmt) : Except String (List PyStmt × LoopState) :=
  processTopLevel initLoopState 0 (walkRenameModule m)

/-- The complete tree stage: rename, top-level loop, scheduled insertions. -/
def processModule (m : List PyStmt) : Except String (List PyStmt × LoopState) :=
  match processModuleCore m with
  | .ok (outs, st) => .ok (applyInsertions outs st.additionalNodes, st)
  | .error e => .error e

/-- `lines[idx:idx] = lines_to_insert`. -/
def insertLinesAt (n : Nat) (xs : List String) (l : List String) : List String :=
  l.take n ++ xs ++ l.drop n

/-- The `__all__` manifest lines built at lines 600-601: the sorted
exported names, quoted, between the bracket lines. -/
def allManifestLines (exportedNames : List String) : List String :=
  "__all__ = [" :: ((pySorted exportedNames).map (fun n => "    \"" ++ n ++ "\",") ++ ["]", "", ""])

/-- Index used by the insertion loop of lines 603-606: the first line
starting with `"class"`, or — by Python's for-else fallthrough — the last
index when no line matches; an empty file leaves `idx` unbound
(NameError). -/
def firstClassLineIdx : List String → Option Nat
  | [] => none
  | l :: rest =>
    if strStartsWith l "class" then some 0
    else (firstClassLineIdx rest).map (fun i => i + 1)

/-- Lines 599-606: insert the `__all__` manifest into the final source
lines. -/
def insertAllManifest (exportedNames : List String) (lines : List String) :
    Except String (List String) :=
  match lines with
  | [] => .error "NameError: name idx is not defined"
  | _ =>
    .ok (insertLinesAt ((firstClassLineIdx lines).getD (lines.length - 1))
      (allManifestLines exportedNames) lines)

/-! ### Token-level mirror rewriting (lines 570-598) -/

/-- Token kinds distinguished by the lexical pass. -/
inductive TokKind where
  | nameTok
  | dedentTok
  | otherTok
deriving DecidableEq

/-- A token of the tokenized source: its type and its text. -/
structure Tok where
  kind : TokKind
  text : String

/-- The token loop of lines 574-597: `checking_class_header` asserts the
token after `class` is a NAME and starts a TypedDict body when its text
ends in `"Dict"`; inside such a body every NAME token is looked up in
DictTokenReplacements until the next DEDENT; otherwise the loop looks for
the NAME token `"class"`.  `none` models the AssertionError. -/
def rewriteTokens (dictRepl : List (String × String)) :
    Bool → Bool → List Tok → Option (List Tok)
  | _, _, [] => some []
  | true, _, t :: ts =>
    if t.kind = TokKind.nameTok then
      match rewriteTokens dictRepl false (strEndsWith t.text "Dict") ts with
      | some rest => some (t :: rest)
      | none => none
    else none
  | false, true, t :: ts =>
    if t.kind = TokKind.dedentTok then
      match rewriteTokens dictRepl false false ts with
      | some rest => some (t :: rest)
      | none => none
    else if t.kind = TokKind.nameTok then
      match rewriteTokens dictRepl false true ts with
      | some rest => some ({ t with text := (lookupStr dictRepl t.text).getD t.text } :: rest)
      | none => none
    else
      match rewriteTokens dictRepl false true ts with
      | some rest => some (t :: rest)
      | none => none
  | false, false, t :: ts =>
    if t.kind = TokKind.nameTok ∧ t.text = "class" then
      match rewriteTokens dictRepl true false ts with
      | some rest => some (t :: rest)
      | none => none
    else
      match rewriteTokens dictRepl false false ts with
      | some rest => some (t :: rest)
      | none => none

mutual

/-- Spec-side labelling of the token stream (claim C8): a token is
labelled `true` exactly when it lies inside the body of a class whose
name ends in `"Dict"`, from the token after the class-name token up to
(excluding) the first DEDENT token.  Scanning state "looking for class". -/
def dictBodyLabels : List Tok → List Bool
  | [] => []
  | t :: ts =>
    if t.kind = TokKind.nameTok ∧ t.text = "class" then false :: dictBodyLabelsHeader ts
    else false :: dictBodyLabels ts

/-- Scanning state "at the class-name token". -/
def dictBodyLabelsHeader : List Tok → List Bool
  | [] => []
  | t :: ts =>
    if strEndsWith t.text "Dict" then false :: dictBodyLabelsBody ts
    else false :: dictBodyLabels ts

/-- Scanning state "inside a Dict class body". -/
def dictBodyLabelsBody : List Tok → List Bool
  | [] => []
  | t :: ts =>
    if t.kind = TokKind.dedentTok then false :: dictBodyLabels ts
    else true :: dictBodyLabelsBody ts

end

/-- Pointwise replacement directed by the labels: NAME tokens inside a
Dict class body are mapped through the replacement table, every other
token is untouched. -/
def applyTokenLabels (dictRepl : List (String × String)) :
    List Tok → List Bool → List Tok
  | [], _ => []
  | _ :: _, [] => []
  | t :: ts, b :: bs =>
    (if b ∧ t.kind = TokKind.nameTok then
      { t with text := (lookupStr dictRepl t.text).getD t.text }
     else t) :: applyTokenLabels dictRepl ts bs

/-! ### Spec-side predicates and helper shapes used by the claims -/

/-- Spec-side conditions (1)-(3) of claim C2 for a single union member:
an object schema with declared properties, the tag field declared among
them with type `"string"`, and a declared (non-null) constant value
(`dict.get` reads a JSON null the same as an absent key). -/
def memberOkay (tagField : String) (entry : Json) : Bool :=
  match entry with
  | .obj entryFields =>
    match lookupField entryFields "properties" with
    | none => false
    | some .null => false
    | some (.obj props) =>
      match lookupField props tagField with
      | none => false
      | some .null => false
      | some (.obj fieldDef) =>
        match lookupField fieldDef "type" with
        | none => false
        | some t =>
          if jeq t (.str "string") then
            match lookupField fieldDef "const" with
            | none => false
            | some .null => false
            | some _ => true
          else false
      | some _ => false
    | some _ => false
  | _ => false

/-- Well-formedness of a union entry for a tag field: every lookup the
detector performs lands on a shape that cannot raise. -/
def entryWellFormed (tagField : String) (entry : Json) : Bool :=
  match entry with
  | .obj entryFields =>
    match lookupField entryFields "properties" with
    | none => true
    | some .null => true
    | some (.obj props) =>
      match lookupField props tagField with
      | none => true
      | some .null => true
      | some (.obj fieldDef) => (lookupField fieldDef "type").isSome
      | some _ => false
    | some _ => false
  | _ => false

/-- The entry lacks the tag field: it declares no properties, or its
properties omit the tag field (a JSON null reading as absent). -/
def lacksTagField (tagField : String) (entry : Json) : Bool :=
  match entry with
  | .obj entryFields =>
    match lookupField entryFields "properties" with
    | none => true
    | some .null => true
    | some (.obj props) =>
      match lookupField props tagField with
      | none => true
      | some .null => true
      | some _ => false
    | some _ => false
  | _ => false

/-- `Except.isOk` specialised to the pipeline results. -/
def isOkResult (r : Except String Json) : Bool :=
  match r with
  | .ok _ => true
  | .error _ => false

/-- `Except.isOk` for definition-list results. -/
def isOkDefs (r : Except String (List (String × Json))) : Bool :=
  match r with
  | .ok _ => true
  | .error _ => false

/-- Lookup inside a definition-list result (a sentinel for the error
case, which the claims rule out). -/
def lookupInResult (r : Except String (List (String × Json))) (k : String) : Option Json :=
  match r with
  | .ok d => lookupField d k
  | .error _ => some .null

/-- Definition names of a processed schema result (for stating claims
about which definitions the output carries). -/
def outputDefinitionNames (r : Except String Json) : List String :=
  match r with
  | .ok j =>
    match getAtPath j ["definitions"] with
    | .ok (.obj defs) => defs.map Prod.fst
    | _ => []
  | _ => []

/-- The document path at which a reference member's tag subschema lives:
`#/definitions/<X>` resolved, then `["properties"][tag]`. -/
def tagPath (x d : String) : List String :=
  ["definitions", x, "properties", d]

/-- A left-nested union chain `n0 | n1 | ... | nk` of bare names
(the shape of a generated union type alias). -/
def buildChain (n0 : String) (rest : List String) : PyExpr :=
  rest.foldl (fun acc m => PyExpr.binOr acc (.name m)) (.name n0)

/-- A generated union alias value: a chain of bare names, optionally
with a trailing `None` member. -/
def buildUnion (n0 : String) (rest : List String) (optNone : Bool) : PyExpr :=
  if optNone then .binOr (buildChain n0 rest) .constNone else buildChain n0 rest

/-- The name order in which the breadth-first walk reaches the leaves of
`buildChain n0 rest :: [name m]` (helper for `bfsUnionOrder`). -/
def specAppendix (n0 : String) : List String → String → List String
  | [], m => [n0, m]
  | nj :: revRest, m => m :: specAppendix n0 revRest nj

/-- The order in which `ast.walk` (breadth-first) yields the bare-name
members of the union `n0 | n1 | ... | nk`: source order for at most two
members, and `[nk, ..., n2, n0, n1]` (the last member first, the first two
last) for three or more. -/
def bfsUnionOrder (n0 : String) (rest : List String) : List String :=
  match rest.reverse with
  | [] => [n0]
  | mk :: revMs => specAppendix n0 revMs mk

/-- A member's recorded mirror, or the member itself. -/
def mirrorOrSelf (dictRepl : List (String × String)) (n : String) : String :=
  (lookupStr dictRepl n).getD n

/-- The union value the synthesizer builds for a bare-name union alias:
the mirrors-or-selves of the members in walk order, with the trailing
`None` preserved. -/
def expectDictUnionExpr (dictRepl : List (String × String)) (n0 : String)
    (rest : List String) (optNone : Bool) : PyExpr :=
  match (bfsUnionOrder n0 rest).map (mirrorOrSelf dictRepl) with
  | [] => .constNone
  | m0 :: ms => buildUnion m0 ms optNone

/-! ### Concrete documents and modules used by the claims -/

/-- A schema document with one optional-result (`"/returns"`) union,
together with the two definitions the pass unconditionally deletes. -/
def rpcReturnsDoc : Json := .obj [("definitions", .obj [
  ("llmContextReferenceJsonFile", .obj []),
  ("llmContextReferenceYamlFile", .obj []),
  ("foo/returns", .obj [("anyOf", .arr [voidSpec, .obj [("type", .str "number")]])])])]

/-- The (verified) output of one inference pass over `rpcReturnsDoc`. -/
def rpcReturnsDocOnce : Json := .obj [("definitions", .obj [
  ("foo/returns", .obj [("anyOf", .arr [
    .obj [("$ref", .str "#/definitions/fooReturnValue")], nullSpec])]),
  ("fooReturnValue", .obj [("type", .str "number")])])]

/-- `rpcReturnsDocOnce` with the two excluded definitions put back, so a
second pass survives the exclusion deletes. -/
def rpcReturnsDocOnceWithExclusions : Json := .obj [("definitions", .obj [
  ("llmContextReferenceJsonFile", .obj []),
  ("llmContextReferenceYamlFile", .obj []),
  ("foo/returns", .obj [("anyOf", .arr [
    .obj [("$ref", .str "#/definitions/fooReturnValue")], nullSpec])]),
  ("fooReturnValue", .obj [("type", .str "number")])])]

/-- A schema document whose union inference re-synthesizes definitions
named exactly like the two deleted exclusions
(`llmContextReference` + capitalized tag values `jsonFile`/`yamlFile`). -/
def exclusionRoundTripDoc : Json := .obj [("definitions", .obj [
  ("llmContextReferenceJsonFile", .obj [("type", .str "string")]),
  ("llmContextReferenceYamlFile", .obj []),
  ("llmContextReference", .obj [("anyOf", .arr [
    .obj [("type", .str "object"), ("properties", .obj [
      ("type", .obj [("type", .str "string"), ("const", .str "jsonFile")])])],
    .obj [("type", .str "object"), ("properties", .obj [
      ("type", .obj [("type", .str "string"), ("const", .str "yamlFile")])])]])])])]

/-- A generated module with a renamed structured (non-Dict) class whose
docstring mentions its own generated name inside a longer text. -/
def structDocstringModule : List PyStmt :=
  [.classDef "ChatMessageData" (some "Based on ChatMessageData schema") []]

/-- A generated module whose union alias has a `Mapping[str, int]`
member alongside a mirrored structured member. -/
def mappingIntUnionModule : List PyStmt :=
  [.classDef "A" none [],
   .classDef "ADict" none [],
   .assign "X" (.binOr (.name "A")
     (.subscript (.name "Mapping") (.tuple [.name "str", .name "int"])))]

/-- A generated module exercising the override table: an overridden
structured class, its overridden Dict mirror (docstring mentioning the
generated name), and an optional union alias over the renamed name. -/
def renameWitnessModule : List PyStmt :=
  [.classDef "ChatMessagePartTextData" none [("text", .name "str")],
   .classDef "ChatMessagePartTextDataDict"
     (some "Corresponds to ChatMessagePartTextDataDict") [],
   .assign "TextLike" (.binOr (.name "ChatMessagePartTextData") .constNone)]

/-- A generated module with one class declaration and one type alias. -/
def aliasExportModule : List PyStmt :=
  [.classDef "A" none [],
   .assign "B" (.name "str")]

mutual

/-- Name-occurrence sites of an expression: identifier occurrences
(`ast.Name` ids) and string-literal forward references (`ast.Constant`
string values), in traversal order. -/
def exprSites : PyExpr → List String
  | .name n => [n]
  | .constStr s => [s]
  | .constNone => []
  | .subscript v i => exprSites v ++ exprSites i
  | .binOr l r => exprSites l ++ exprSites r
  | .tuple es => exprSitesList es

def exprSitesList : List PyExpr → List String
  | [] => []
  | e :: es => exprSites e ++ exprSitesList es

end

/-- Name-occurrence sites of a top-level statement: the class definition
name, field targets and annotation sites, or the assignment target and
value sites.  Docstrings are not name sites (they are prose, not
identifiers or forward references). -/
def stmtSites : PyStmt → List String
  | .classDef n _ fields =>
    n :: (fields.map Prod.fst ++ exprSitesList (fields.map Prod.snd))
  | .assign t v => t :: exprSites v
  | .other => []

/-- The post-rename exported name a top-level statement contributes to
`exported_names` (class declarations only, with the override applied). -/
def exportedClassName : PyStmt → Option String
  | .classDef n _ _ => some (overrideName n)
  | _ => none

/-- The definitions-table name a prepared reference member resolves to
(`["definitions", x]` paths only); `none` for anonymous members and other
path shapes. -/
def refDefName (p : Option (String × List String) × Json) : Option String :=
  match p with
  | (some (_, rp), _) =>
    match rp with
    | [root, x] => if root = "definitions" then some x else none
    | _ => none
  | (none, _) => none

/-- The extracted-definition name an anonymous prepared member would
produce (the `_make_spec_name` result for its constant tag value); `none`
when any lookup on the way fails. -/
def anonSpecName (d specName : String) (p : Option (String × List String) × Json) :
    Option String :=
  match p with
  | (none, .obj mF) =>
    match lookupField mF "properties" with
    | some (.obj props) =>
      match lookupField props d with
      | some (.obj ts) =>
        match lookupField ts "const" with
        | some (.str tv) =>
          match makeSpecName specName tv with
          | .ok nsn => some nsn
          | .error _ => none
        | _ => none
      | _ => none
    | _ => none
  | _ => none

/-- A document whose `definitions` hold the target of a reference union
member (tag field `"type"`, constant `"a"`, no default/title yet). -/
def c9WitnessDoc : Json := .obj [("definitions", .obj [
  ("refVariant", .obj [("type", .str "object"), ("properties", .obj [
    ("type", .obj [("type", .str "string"), ("const", .str "a")])])])])]

/-- Prepared members of a discriminated union: one reference member and
one anonymous member whose tag spec already carries a title. -/
def c9WitnessMembers : List (Option (String × List String) × Json) :=
  [(some ("#/definitions/refVariant", ["definitions", "refVariant"]),
      .obj [("$ref", .str "#/definitions/refVariant")]),
   (none, .obj [("type", .str "object"), ("properties", .obj [
      ("type", .obj [("type", .str "string"), ("const", .str "b"),
        ("title", .str "Custom")])])])]

/-- The (verified) document after the variant loop on `c9WitnessMembers`:
the reference target's tag spec gained `default`/`title`. -/
def c9WitnessDocOut : Json := .obj [("definitions", .obj [
  ("refVariant", .obj [("type", .str "object"), ("properties", .obj [
    ("type", .obj [("type", .str "string"), ("const", .str "a"),
      ("default", .str "a"), ("title", .str "Type")])])])])]

/-- The (verified) extracted definitions after the variant loop: the
anonymous member under its generated name, with `default` added and the
pre-existing `title` untouched. -/
def c9WitnessDefsOut : List (String × Json) :=
  [("specB", .obj [("type", .str "object"), ("properties", .obj [
    ("type", .obj [("type", .str "string"), ("const", .str "b"),
      ("title", .str "Custom"), ("default", .str "b")])])])]

/-! ## Theorems -/

/-- C1: optional-result rewrite.  For a `"/returns"` union: with exactly
two members of which exactly one is a "no value" encoding (`{"not": {}}`
or `{"type": "null"}`), the member list is rewritten to exactly
`[{"$ref": "#/definitions/<prefix>ReturnValue"}, {"type": "null"}]` and
the definition `<prefix>ReturnValue` equal to the other member is returned
for registration; with both members "no value", neither, or a member count
other than two, no rewrite occurs and no definition is synthesized. -/
theorem c1_optional_result_rewrite (name : String) (members : List Json)
    (hret : strEndsWith name "/returns" = true) :
    (∀ a b, members = [a, b] → allowsOmission a = true → allowsOmission b = false →
      processRpcResultUnion name members =
        some ([Json.obj [("$ref", Json.str ("#/definitions/" ++ returnValueName name))], nullSpec],
          returnValueName name, b)) ∧
    (∀ a b, members = [a, b] → allowsOmission a = false → allowsOmission b = true →
      processRpcResultUnion name members =
        some ([Json.obj [("$ref", Json.str ("#/definitions/" ++ returnValueName name))], nullSpec],
          returnValueName name, a)) ∧
    (∀ a b, members = [a, b] → allowsOmission a = allowsOmission b →
      processRpcResultUnion name members = none) ∧
    (members.length ≠ 2 → processRpcResultUnion name members = none) := by
  refine ⟨?_, ?_, ?_, ?_⟩
  · intro a b hm ha hb
    subst hm
    simp [processRpcResultUnion, isVoidUnion, ha, hb]
  · intro a b hm ha hb
    subst hm
    simp [processRpcResultUnion, isVoidUnion, ha, hb]
  · intro a b hm hab
    subst hm
    cases ha : allowsOmission a <;>
      simp [processRpcResultUnion, isVoidUnion, ha, ← hab]
  · intro hlen
    cases members with
    | nil => rfl
    | cons a t =>
      cases t with
      | nil => rfl
      | cons b t2 =>
        cases t2 with
        | nil => simp at hlen
        | cons c t3 => rfl

/-- Witness for C1 at a concrete input: `{"not": {}} | {"type": "number"}`
under the name `"foo/returns"` is rewritten, with
`fooReturnValue = {"type": "number"}`. -/
theorem c1_optional_result_rewrite_witness :
    processRpcResultUnion "foo/returns" [voidSpec, Json.obj [("type", Json.str "number")]] =
      some ([Json.obj [("$ref", Json.str "#/definitions/fooReturnValue")], nullSpec],
        "fooReturnValue", Json.obj [("type", Json.str "number")]) :=
  (c1_optional_result_rewrite "foo/returns" [voidSpec, Json.obj [("type", Json.str "number")]]
    (by rfl)).1 voidSpec (Json.obj [("type", Json.str "number")]) rfl (by rfl) (by rfl)

/-- An entry passes the detector's checks exactly when it satisfies the
spec-side conditions. -/
theorem entryVerdict_passes_iff (t : String) (e : Json) :
    entryVerdict t e = EntryVerdict.passes ↔ memberOkay t e = true := by
  unfold entryVerdict memberOkay
  repeat' split
  all_goals (first | rfl | simp_all [jeq])

/-- A well-formed entry never makes the detector raise. -/
theorem entryVerdict_no_raise_of_wellFormed (t : String) (e : Json)
    (hw : entryWellFormed t e = true) :
    ∀ msg, entryVerdict t e ≠ EntryVerdict.raises msg := by
  intro msg
  unfold entryWellFormed at hw
  unfold entryVerdict
  repeat' split
  all_goals (first | rfl | simp_all)

/-- An entry that lacks the tag field fails the spec-side conditions. -/
theorem memberOkay_false_of_lacks (t : String) (e : Json)
    (hl : lacksTagField t e = true) : memberOkay t e = false := by
  unfold lacksTagField at hl
  unfold memberOkay
  repeat' split
  all_goals (first | rfl | simp_all)

/-- C2 (amended): the detector returns `True` exactly when every member
meets conditions (1)-(3); and when every member is well-formed (no lookup
can raise) and at least one member lacks the tag field, it returns
`False`.  (As stated, with ill-formed members present the detector can
raise instead of returning `False`; see the counterexample.) -/
theorem c2_discriminator_detection (tagField : String) (unionArray : List Json) :
    (checkDiscriminator tagField unionArray = .ok true ↔
      ∀ e ∈ unionArray, memberOkay tagField e = true) ∧
    ((∀ e ∈ unionArray, entryWellFormed tagField e = true) →
      (∃ e ∈ unionArray, lacksTagField tagField e = true) →
      checkDiscriminator tagField unionArray = .ok false) := by
  induction unionArray with
  | nil =>
    refine ⟨by simp [checkDiscriminator], ?_⟩
    intro _ h
    rcases h with ⟨e, he, _⟩
    cases he
  | cons e rest ih =>
    have hmemFalse : entryVerdict tagField e ≠ EntryVerdict.passes →
        memberOkay tagField e = false := by
      intro hnp
      cases hmo : memberOkay tagField e
      · rfl
      · exact absurd ((entryVerdict_passes_iff tagField e).2 hmo) hnp
    constructor
    · rcases hv : entryVerdict tagField e with _ | _ | msg
      · have hm : memberOkay tagField e = true := (entryVerdict_passes_iff tagField e).1 hv
        simp only [checkDiscriminator, hv]
        simp [hm, ih.1]
      · have hm := hmemFalse (by simp [hv])
        simp only [checkDiscriminator, hv]
        simp [hm]
      · have hm := hmemFalse (by simp [hv])
        simp only [checkDiscriminator, hv]
        simp [hm]
    · intro hwf hex
      rcases hv : entryVerdict tagField e with _ | _ | msg
      · have hm : memberOkay tagField e = true := (entryVerdict_passes_iff tagField e).1 hv
        rcases hex with ⟨x, hx, hlx⟩
        rcases List.mem_cons.mp hx with hxe | hxr
        · subst hxe
          exact absurd hm (by simp [memberOkay_false_of_lacks tagField x hlx])
        · have hrest := ih.2 (fun y hy => hwf y (List.mem_cons_of_mem _ hy)) ⟨x, hxr, hlx⟩
          simp only [checkDiscriminator, hv]
          exact hrest
      · simp only [checkDiscriminator, hv]
      · exact absurd hv
          (entryVerdict_no_raise_of_wellFormed tagField e (hwf e (List.mem_cons_self _ _)) msg)

/-- Witness for C2 at a concrete input: a first member lacking the tag
field among well-formed members makes the detector return `False`. -/
theorem c2_discriminator_detection_witness :
    checkDiscriminator "type"
      [Json.obj [],
       Json.obj [("properties", Json.obj [("type",
         Json.obj [("type", Json.str "string"), ("const", Json.str "a")])])]] = .ok false :=
  (c2_discriminator_detection "type" _).2 (by decide)
    ⟨Json.obj [], List.mem_cons_self _ _, by decide⟩

/-- Counterexample for C2 as frozen: the second member lacks the tag
field `"type"`, yet the detector raises (Python KeyError on the first
member's tag definition, which declares `"const"` but no `"type"`)
instead of returning `False` for that candidate. -/
theorem c2_discriminator_detection_counterexample :
    lacksTagField "type" (Json.obj []) = true ∧
    checkDiscriminator "type"
      [Json.obj [("properties", Json.obj [("type", Json.obj [("const", Json.str "a")])])],
       Json.obj []] = .error "KeyError: type" := ⟨rfl, rfl⟩

/-- C3: evaluation of the inference pass at the failing input.  One pass
over `rpcReturnsDoc` succeeds (rewriting the `"foo/returns"` union and
synthesizing `fooReturnValue`); running the pass again on that output
fails with a KeyError (the unconditionally deleted excluded definitions
are already gone), and even with the two excluded definitions restored the
second pass fails with a duplicate-definition RuntimeError because the
rewritten `[{"$ref": ...ReturnValue}, {"type": "null"}]` union is again
recognized as an optional-result union and `fooReturnValue` is extracted a
second time. -/
theorem c3_second_pass_fails :
    processSchema 20 rpcReturnsDoc = .ok rpcReturnsDocOnce ∧
    processSchema 20 rpcReturnsDocOnce = .error "KeyError: llmContextReferenceJsonFile" ∧
    processSchema 20 rpcReturnsDocOnceWithExclusions =
      .error "RuntimeError: Duplicate extracted definitions" := ⟨rfl, rfl, rfl⟩

/-- An absent key makes `del` raise. -/
theorem deleteField_eq_none_of_lookup_none (fs : List (String × Json)) (k : String)
    (h : lookupField fs k = none) : deleteField fs k = none := by
  induction fs with
  | nil => rfl
  | cons p rest ih =>
    obtain ⟨k0, v⟩ := p
    simp only [lookupField] at h
    simp only [deleteField]
    by_cases hk : k0 = k
    · simp [hk] at h
    · simp only [if_neg hk] at h ⊢
      simp [ih h]

/-- A present key makes `del` succeed. -/
theorem deleteField_isSome_of_lookup_some (fs : List (String × Json)) (k : String) (v : Json)
    (h : lookupField fs k = some v) : ∃ fs2, deleteField fs k = some fs2 := by
  induction fs with
  | nil => simp [lookupField] at h
  | cons p rest ih =>
    obtain ⟨k0, w⟩ := p
    simp only [lookupField] at h
    simp only [deleteField]
    by_cases hk : k0 = k
    · exact ⟨rest, by simp [hk]⟩
    · simp only [if_neg hk] at h ⊢
      obtain ⟨fs2, hfs2⟩ := ih h
      exact ⟨(k0, w) :: fs2, by simp [hfs2]⟩

/-- `del` leaves lookups of other keys unchanged. -/
theorem lookupField_deleteField_ne (fs fs2 : List (String × Json)) (k k2 : String)
    (h : deleteField fs k = some fs2) (hne : k2 ≠ k) :
    lookupField fs2 k2 = lookupField fs k2 := by
  induction fs generalizing fs2 with
  | nil => simp [deleteField] at h
  | cons p rest ih =>
    obtain ⟨k0, w⟩ := p
    simp only [deleteField] at h
    by_cases hk : k0 = k
    · simp only [if_pos hk] at h
      cases h
      simp only [lookupField]
      rw [if_neg (fun hx => hne (by rw [← hk]; exact hx.symm))]
    · simp only [if_neg hk] at h
      cases hrec : deleteField rest k with
      | none => rw [hrec] at h; simp at h
      | some r2 =>
        rw [hrec] at h
        simp only [Option.map_some'] at h
        cases h
        simp only [lookupField]
        by_cases hk2 : k0 = k2
        · simp [hk2]
        · simp [hk2, ih r2 hrec]

/-- A key outside the key list is not found. -/
theorem lookupField_eq_none_of_not_mem (fs : List (String × Json)) (k : String)
    (h : k ∉ fs.map Prod.fst) : lookupField fs k = none := by
  induction fs with
  | nil => rfl
  | cons p rest ih =>
    obtain ⟨k0, v⟩ := p
    simp only [List.map_cons, List.mem_cons] at h
    push_neg at h
    simp only [lookupField]
    rw [if_neg (fun hx => h.1 (Eq.symm hx))]
    exact ih h.2

/-- `del` removes a sublist of the keys. -/
theorem deleteField_map_fst_sublist (fs fs2 : List (String × Json)) (k : String)
    (h : deleteField fs k = some fs2) :
    List.Sublist (fs2.map Prod.fst) (fs.map Prod.fst) := by
  induction fs generalizing fs2 with
  | nil => simp [deleteField] at h
  | cons p rest ih =>
    obtain ⟨k0, w⟩ := p
    simp only [deleteField] at h
    by_cases hk : k0 = k
    · simp only [if_pos hk] at h
      cases h
      exact List.sublist_cons_self _ _
    · simp only [if_neg hk] at h
      cases hrec : deleteField rest k with
      | none => rw [hrec] at h; simp at h
      | some r2 =>
        rw [hrec] at h
        simp only [Option.map_some'] at h
        cases h
        simpa using (ih r2 hrec).cons₂ k0

/-- With unique keys, `del` makes the deleted key unavailable. -/
theorem lookupField_deleteField_self (fs fs2 : List (String × Json)) (k : String)
    (hnd : (fs.map Prod.fst).Nodup) (h : deleteField fs k = some fs2) :
    lookupField fs2 k = none := by
  induction fs generalizing fs2 with
  | nil => simp [deleteField] at h
  | cons p rest ih =>
    obtain ⟨k0, w⟩ := p
    simp only [List.map_cons, List.nodup_cons] at hnd
    simp only [deleteField] at h
    by_cases hk : k0 = k
    · simp only [if_pos hk] at h
      cases h
      exact lookupField_eq_none_of_not_mem _ _ (by rw [← hk]; exact hnd.1)
    · simp only [if_neg hk] at h
      cases hrec : deleteField rest k with
      | none => rw [hrec] at h; simp at h
      | some r2 =>
        rw [hrec] at h
        simp only [Option.map_some'] at h
        cases h
        simp only [lookupField, if_neg hk]
        exact ih r2 hnd.2 hrec

/-- `Except` bind on a success value. -/
theorem exceptBind_ok {α β : Type} (a : α) (f : α → Except String β) :
    (Except.ok (ε := String) a >>= f) = f a := rfl

/-- `Except` bind on an error value. -/
theorem exceptBind_error {α β : Type} (e : String) (f : α → Except String β) :
    (Except.error (α := α) e >>= f) = Except.error e := rfl

/-- C10 (amended): the two excluded definitions are unconditionally
deleted before any union inference — the pass fails when either is
absent, and when both are present the deletion step removes exactly those
two names.  (Deletion does not keep the names out of the output: the
inference may synthesize definitions of the same names again, see the
counterexample.) -/
theorem c10_exclusion_deletion (doc : Json) (defs : List (String × Json))
    (hdefs : getAtPath doc ["definitions"] = .ok (.obj defs)) :
    ((lookupField defs "llmContextReferenceJsonFile" = none ∨
      lookupField defs "llmContextReferenceYamlFile" = none) →
      ∀ fuel, isOkResult (processSchema fuel doc) = false) ∧
    ((defs.map Prod.fst).Nodup →
      ∀ vj vy, lookupField defs "llmContextReferenceJsonFile" = some vj →
        lookupField defs "llmContextReferenceYamlFile" = some vy →
        isOkDefs (deleteExcluded defs excludeExportedSchemas) = true ∧
        lookupInResult (deleteExcluded defs excludeExportedSchemas)
          "llmContextReferenceJsonFile" = none ∧
        lookupInResult (deleteExcluded defs excludeExportedSchemas)
          "llmContextReferenceYamlFile" = none) := by
  have hne : ("llmContextReferenceYamlFile" : String) ≠ "llmContextReferenceJsonFile" := by
    decide
  constructor
  · intro hmiss fuel
    simp only [processSchema, hdefs, exceptBind_ok]
    have hobj : asObj (Json.obj defs) = .ok defs := rfl
    rw [hobj]
    simp only [exceptBind_ok, excludeExportedSchemas, deleteExcluded]
    rcases hmiss with hjson | hyaml
    · rw [deleteField_eq_none_of_lookup_none _ _ hjson]
      rfl
    · cases hjson : lookupField defs "llmContextReferenceJsonFile" with
      | none =>
        rw [deleteField_eq_none_of_lookup_none _ _ hjson]
        rfl
      | some vj =>
        obtain ⟨fs2, hdel⟩ := deleteField_isSome_of_lookup_some _ _ _ hjson
        rw [hdel]
        simp only [deleteExcluded]
        have hy2 : lookupField fs2 "llmContextReferenceYamlFile" = none := by
          rw [lookupField_deleteField_ne _ _ _ _ hdel hne]
          exact hyaml
        rw [deleteField_eq_none_of_lookup_none _ _ hy2]
        rfl
  · intro hnd vj vy hjson hyaml
    obtain ⟨fs2, hdel⟩ := deleteField_isSome_of_lookup_some _ _ _ hjson
    have hy2 : lookupField fs2 "llmContextReferenceYamlFile" = some vy := by
      rw [lookupField_deleteField_ne _ _ _ _ hdel hne]
      exact hyaml
    obtain ⟨fs3, hdel2⟩ := deleteField_isSome_of_lookup_some _ _ _ hy2
    have hres : deleteExcluded defs excludeExportedSchemas = .ok fs3 := by
      simp only [excludeExportedSchemas, deleteExcluded, hdel, hdel2]
    refine ⟨by rw [hres]; rfl, ?_, ?_⟩
    · rw [hres]
      show lookupField fs3 "llmContextReferenceJsonFile" = none
      rw [lookupField_deleteField_ne _ _ _ _ hdel2 hne.symm]
      exact lookupField_deleteField_self _ _ _ hnd hdel
    · rw [hres]
      show lookupField fs3 "llmContextReferenceYamlFile" = none
      have hnd2 : (fs2.map Prod.fst).Nodup :=
        (deleteField_map_fst_sublist _ _ _ hdel).nodup hnd
      exact lookupField_deleteField_self _ _ _ hnd2 hdel2

/-- Witness for C10 at concrete inputs: a document whose definitions lack
the excluded names makes the pass fail, and a two-entry definitions
mapping holding exactly the excluded names is emptied by the deletes. -/
theorem c10_exclusion_deletion_witness :
    isOkResult (processSchema 5 (Json.obj [("definitions", Json.obj [])])) = false ∧
    isOkDefs (deleteExcluded
      [("llmContextReferenceJsonFile", Json.obj []), ("llmContextReferenceYamlFile", Json.obj [])]
      excludeExportedSchemas) = true :=
  ⟨(c10_exclusion_deletion (Json.obj [("definitions", Json.obj [])]) [] rfl).1 (Or.inl rfl) 5,
   ((c10_exclusion_deletion (Json.obj [("definitions", Json.obj
        [("llmContextReferenceJsonFile", Json.obj []),
         ("llmContextReferenceYamlFile", Json.obj [])])])
      [("llmContextReferenceJsonFile", Json.obj []), ("llmContextReferenceYamlFile", Json.obj [])]
      rfl).2 (by decide) (Json.obj []) (Json.obj []) rfl rfl).1⟩

/-- Counterexample for C10 as frozen: processing `exclusionRoundTripDoc`
succeeds, and its output again contains definitions named
`llmContextReferenceJsonFile` and `llmContextReferenceYamlFile` — they are
re-synthesized as the extracted variants of the `llmContextReference`
union, so deletion does not ensure the names are absent from the
output. -/
theorem c10_exclusion_deletion_counterexample :
    isOkResult (processSchema 20 exclusionRoundTripDoc) = true ∧
    (outputDefinitionNames (processSchema 20 exclusionRoundTripDoc)).contains
      "llmContextReferenceJsonFile" = true ∧
    (outputDefinitionNames (processSchema 20 exclusionRoundTripDoc)).contains
      "llmContextReferenceYamlFile" = true := ⟨rfl, rfl, rfl⟩

/-- C4 (amended): the docstring repair applies to renamed dict-mirror
class declarations — the pre-rename generated name is replaced by the new
name throughout that class's docstring — while a renamed structured
(non-Dict) class declaration keeps its docstring unchanged. -/
theorem c4_docstring_rename_repair (st : LoopState) (idx : Nat) (nm ds ov : String)
    (fields : List (String × PyExpr)) (hov : lookupOverride nm = some ov) :
    (strEndsWith ov "Dict" = true →
      st.declaredStructs.contains (pyRemoveSuffix ov "Dict") = true →
      processStmt st idx (.classDef nm (some ds) fields) =
        .ok (.classDef ov (some (pyReplace ds nm ov)) fields,
          { st with
              dictTokenReplacements :=
                setStrField st.dictTokenReplacements (pyRemoveSuffix ov "Dict") ov,
              exportedNames := st.exportedNames ++ [ov] })) ∧
    (strEndsWith ov "Dict" = false →
      processStmt st idx (.classDef nm (some ds) fields) =
        .ok (.classDef ov (some ds) fields,
          { st with
              declaredStructs := st.declaredStructs ++ [ov],
              exportedNames := st.exportedNames ++ [ov] })) := by
  constructor
  · intro hdict hdecl
    simp only [processStmt, hov, Option.getD, hdict, hdecl]
    rfl
  · intro hdict
    simp only [processStmt, hov, Option.getD, hdict]
    rfl

/-- Witness for C4 at a concrete input: a renamed Dict class has its
docstring's mention of the pre-rename Dict name replaced. -/
theorem c4_docstring_rename_repair_witness :
    processStmt ⟨["UserMessage"], [], [], []⟩ 0
      (.classDef "ChatMessageDataUserDict" (some "Corresponds to ChatMessageDataUserDict") []) =
      .ok (.classDef "UserMessageDict"
        (some (pyReplace "Corresponds to ChatMessageDataUserDict"
          "ChatMessageDataUserDict" "UserMessageDict")) [],
        ⟨["UserMessage"], [("UserMessage", "UserMessageDict")], ["UserMessageDict"], []⟩) :=
  (c4_docstring_rename_repair ⟨["UserMessage"], [], [], []⟩ 0 "ChatMessageDataUserDict"
    "Corresponds to ChatMessageDataUserDict" "UserMessageDict" [] (by rfl)).1 (by rfl) (by rfl)

/-- Counterexample for C4 as frozen: a renamed structured (non-Dict)
class whose docstring mentions its pre-rename generated name inside a
longer text keeps that docstring verbatim — the pre-rename name
`ChatMessageData` still appears, and `AnyChatMessage` does not. -/
theorem c4_docstring_rename_repair_counterexample :
    processModule structDocstringModule =
      .ok ([.classDef "AnyChatMessage" (some "Based on ChatMessageData schema") []],
        ⟨["AnyChatMessage"], [], ["AnyChatMessage"], []⟩) ∧
    strContains "Based on ChatMessageData schema" "ChatMessageData" = true ∧
    strContains "Based on ChatMessageData schema" "AnyChatMessage" = false := ⟨rfl, rfl, rfl⟩

/-- One loop step appends exactly the class declarations' post-rename
names to `exported_names`. -/
theorem processStmt_exportedNames (st : LoopState) (idx : Nat) (s s2 : PyStmt)
    (st2 : LoopState) (h : processStmt st idx s = .ok (s2, st2)) :
    st2.exportedNames = st.exportedNames ++ (exportedClassName s).toList := by
  cases s with
  | classDef nm doc fields =>
    simp only [processStmt] at h
    repeat' split at h
    all_goals first
      | (cases h; rfl)
      | (cases h; simp [exportedClassName, overrideName, *])
      | simp_all
  | assign t v =>
    simp only [processStmt] at h
    repeat' split at h
    all_goals first
      | (cases h; simp [exportedClassName])
      | simp_all
  | other =>
    cases h
    simp [exportedClassName]

/-- The top-level loop collects exactly the post-rename class names, in
declaration order. -/
theorem processTopLevel_exportedNames (stmts : List PyStmt) (st : LoopState) (idx : Nat)
    (outs : List PyStmt) (stF : LoopState)
    (h : processTopLevel st idx stmts = .ok (outs, stF)) :
    stF.exportedNames = st.exportedNames ++ stmts.filterMap exportedClassName := by
  induction stmts generalizing st idx outs with
  | nil =>
    cases h
    simp
  | cons s rest ih =>
    cases hs : processStmt st idx s with
    | error e => simp only [processTopLevel, hs] at h; cases h
    | ok p =>
      obtain ⟨s2, st2⟩ := p
      cases hr : processTopLevel st2 (idx + 1) rest with
      | error e => simp only [processTopLevel, hs, hr] at h; cases h
      | ok q =>
        obtain ⟨rest2, stF2⟩ := q
        simp only [processTopLevel, hs, hr] at h
        cases h
        rw [ih st2 (idx + 1) rest2 hr, processStmt_exportedNames st idx s s2 st2 hs]
        cases s <;> simp [exportedClassName, List.filterMap_cons]

/-- The whole-tree rename does not change which statements are class
declarations nor their post-rename names. -/
theorem walkRename_exportedClassName (m : List PyStmt) :
    (walkRenameModule m).filterMap exportedClassName = m.filterMap exportedClassName := by
  induction m with
  | nil => rfl
  | cons s rest ih =>
    simp only [walkRenameModule, List.map_cons, List.filterMap_cons] at *
    cases s <;> simp only [renameStmtWalk, exportedClassName] <;>
      simp [List.filterMap_map] at ih ⊢ <;> exact ih

/-- The first `"class"` line of `pre ++ c :: rest` with no class line in
`pre` is at index `pre.length`. -/
theorem firstClassLineIdx_append (pre rest : List String) (c : String)
    (hpre : ∀ l ∈ pre, strStartsWith l "class" = false)
    (hc : strStartsWith c "class" = true) :
    firstClassLineIdx (pre ++ c :: rest) = some pre.length := by
  induction pre with
  | nil => simp [firstClassLineIdx, hc]
  | cons l pre' ih =>
    have hl : strStartsWith l "class" = false := hpre l (List.mem_cons_self _ _)
    simp only [List.cons_append, firstClassLineIdx, hl, List.append_eq]
    rw [ih (fun x hx => hpre x (List.mem_cons_of_mem _ hx))]
    simp

/-- C5 (amended): the emitted `__all__` manifest holds exactly the
post-rename names of the top-level class declarations (type aliases and
synthesized Dict aliases are not collected), in sorted order, and it is
inserted immediately before the first class line of the final source
text. -/
theorem c5_export_manifest (m outs : List PyStmt) (st : LoopState)
    (pre rest : List String) (c : String)
    (h : processModuleCore m = .ok (outs, st))
    (hpre : ∀ l ∈ pre, strStartsWith l "class" = false)
    (hc : strStartsWith c "class" = true) :
    st.exportedNames = m.filterMap exportedClassName ∧
    insertAllManifest st.exportedNames (pre ++ c :: rest) =
      .ok (pre ++ (allManifestLines st.exportedNames ++ c :: rest)) := by
  constructor
  · have he := processTopLevel_exportedNames (walkRenameModule m) initLoopState 0 outs st h
    rw [he, walkRename_exportedClassName]
    simp [initLoopState]
  · have hidx := firstClassLineIdx_append pre rest c hpre hc
    cases pre with
    | nil =>
      simp only [List.nil_append] at hidx ⊢
      simp [insertAllManifest, hidx, insertLinesAt]
    | cons a pre2 =>
      simp only [List.cons_append] at hidx ⊢
      simp only [insertAllManifest, hidx, Option.getD]
      simp only [insertLinesAt, ← List.cons_append]
      rw [show (a :: pre2).length = ((a :: pre2 : List String)).length from rfl,
        List.take_left, List.drop_left]
      simp

/-- Witness for C5 at a concrete input: a one-class module, with the
manifest inserted between the import line and the class line. -/
theorem c5_export_manifest_witness :
    (⟨["A"], [], ["A"], []⟩ : LoopState).exportedNames =
      [PyStmt.classDef "A" none []].filterMap exportedClassName ∧
    insertAllManifest (["A"] : List String) (["import x"] ++ "class A:" :: ["    pass"]) =
      .ok (["import x"] ++ (allManifestLines ["A"] ++ "class A:" :: ["    pass"])) :=
  c5_export_manifest [PyStmt.classDef "A" none []] [PyStmt.classDef "A" none []]
    ⟨["A"], [], ["A"], []⟩ ["import x"] ["    pass"] "class A:" (by rfl)
    (by decide) (by rfl)

/-- Counterexample for C5 as frozen: in a module declaring class `A` and
top-level type alias `B`, the collected export list is `["A"]` — the
alias `B` (a top-level declared name) is missing from the manifest. -/
theorem c5_export_manifest_counterexample :
    processModuleCore aliasExportModule =
      .ok (aliasExportModule, ⟨["A"], [("B", "str")], ["A"], []⟩) ∧
    (["A"] : List String).contains "B" = false := ⟨rfl, rfl⟩

/-- State-indexed correspondence between the token loop and the spec-side
labelling: in each of the three scanning states, a successful run equals
the pointwise label-directed replacement. -/
theorem rewriteTokens_labels (dictRepl : List (String × String)) (ts : List Tok) :
    (∀ out, rewriteTokens dictRepl false false ts = some out →
      out = applyTokenLabels dictRepl ts (dictBodyLabels ts)) ∧
    (∀ out, rewriteTokens dictRepl true false ts = some out →
      out = applyTokenLabels dictRepl ts (dictBodyLabelsHeader ts)) ∧
    (∀ out, rewriteTokens dictRepl false true ts = some out →
      out = applyTokenLabels dictRepl ts (dictBodyLabelsBody ts)) := by
  induction ts with
  | nil =>
    refine ⟨?_, ?_, ?_⟩ <;> intro out h <;> cases h <;> rfl
  | cons t rest ih =>
    refine ⟨?_, ?_, ?_⟩ <;> intro out h
    · simp only [rewriteTokens] at h
      by_cases hcl : t.kind = TokKind.nameTok ∧ t.text = "class"
      · rw [if_pos hcl] at h
        cases hr : rewriteTokens dictRepl true false rest with
        | none => rw [hr] at h; cases h
        | some r =>
          rw [hr] at h
          cases h
          simp only [dictBodyLabels, if_pos hcl, applyTokenLabels]
          rw [ih.2.1 r hr]
          simp
      · rw [if_neg hcl] at h
        cases hr : rewriteTokens dictRepl false false rest with
        | none => rw [hr] at h; cases h
        | some r =>
          rw [hr] at h
          cases h
          simp only [dictBodyLabels, if_neg hcl, applyTokenLabels]
          rw [ih.1 r hr]
          simp
    · simp only [rewriteTokens] at h
      by_cases hk : t.kind = TokKind.nameTok
      · rw [if_pos hk] at h
        cases hd : strEndsWith t.text "Dict" with
        | true =>
          rw [hd] at h
          cases hr : rewriteTokens dictRepl false true rest with
          | none => rw [hr] at h; cases h
          | some r =>
            rw [hr] at h
            cases h
            simp only [dictBodyLabelsHeader, hd, if_pos, applyTokenLabels]
            rw [ih.2.2 r hr]
            simp
        | false =>
          rw [hd] at h
          cases hr : rewriteTokens dictRepl false false rest with
          | none => rw [hr] at h; cases h
          | some r =>
            rw [hr] at h
            cases h
            simp only [dictBodyLabelsHeader, hd, Bool.false_eq_true, if_false, applyTokenLabels]
            rw [ih.1 r hr]
            simp
      · rw [if_neg hk] at h
        cases h
    · simp only [rewriteTokens] at h
      by_cases hd : t.kind = TokKind.dedentTok
      · rw [if_pos hd] at h
        cases hr : rewriteTokens dictRepl false false rest with
        | none => rw [hr] at h; cases h
        | some r =>
          rw [hr] at h
          cases h
          simp only [dictBodyLabelsBody, if_pos hd, applyTokenLabels]
          rw [ih.1 r hr]
          simp
      · rw [if_neg hd] at h
        by_cases hk : t.kind = TokKind.nameTok
        · rw [if_pos hk] at h
          cases hr : rewriteTokens dictRepl false true rest with
          | none => rw [hr] at h; cases h
          | some r =>
            rw [hr] at h
            cases h
            simp only [dictBodyLabelsBody, if_neg hd, applyTokenLabels]
            rw [ih.2.2 r hr]
            simp [hk]
        · rw [if_neg hk] at h
          cases hr : rewriteTokens dictRepl false true rest with
          | none => rw [hr] at h; cases h
          | some r =>
            rw [hr] at h
            cases h
            simp only [dictBodyLabelsBody, if_neg hd, applyTokenLabels]
            rw [ih.2.2 r hr]
            simp [hk]

/-- C8: in the lexical pass, a NAME token is replaced through
DictTokenReplacements exactly when it lies inside the body of a class
whose name ends in `"Dict"` — from the token after the class-name token
until the first DEDENT ending that body — and every other token (NAME
tokens outside such bodies, and all non-NAME tokens) passes through
unchanged. -/
theorem c8_token_mirror_rewriting (dictRepl : List (String × String))
    (toks out : List Tok) (h : rewriteTokens dictRepl false false toks = some out) :
    out = applyTokenLabels dictRepl toks (dictBodyLabels toks) :=
  (rewriteTokens_labels dictRepl toks).1 out h

/-- Witness for C8 at a concrete token stream: `class FooDict : <body>
DEDENT` followed by an outside NAME — the body NAME `A` is replaced by
`ADict`, the trailing outside `A` is untouched. -/
theorem c8_token_mirror_rewriting_witness :
    rewriteTokens [("A", "ADict")] false false
      [⟨TokKind.nameTok, "class"⟩, ⟨TokKind.nameTok, "FooDict"⟩, ⟨TokKind.otherTok, ":"⟩,
       ⟨TokKind.nameTok, "A"⟩, ⟨TokKind.dedentTok, ""⟩, ⟨TokKind.nameTok, "A"⟩] =
      some [⟨TokKind.nameTok, "class"⟩, ⟨TokKind.nameTok, "FooDict"⟩, ⟨TokKind.otherTok, ":"⟩,
       ⟨TokKind.nameTok, "ADict"⟩, ⟨TokKind.dedentTok, ""⟩, ⟨TokKind.nameTok, "A"⟩] ∧
    ([⟨TokKind.nameTok, "class"⟩, ⟨TokKind.nameTok, "FooDict"⟩, ⟨TokKind.otherTok, ":"⟩,
       ⟨TokKind.nameTok, "ADict"⟩, ⟨TokKind.dedentTok, ""⟩, ⟨TokKind.nameTok, "A"⟩] : List Tok) =
      applyTokenLabels [("A", "ADict")]
        [⟨TokKind.nameTok, "class"⟩, ⟨TokKind.nameTok, "FooDict"⟩, ⟨TokKind.otherTok, ":"⟩,
         ⟨TokKind.nameTok, "A"⟩, ⟨TokKind.dedentTok, ""⟩, ⟨TokKind.nameTok, "A"⟩]
        (dictBodyLabels
          [⟨TokKind.nameTok, "class"⟩, ⟨TokKind.nameTok, "FooDict"⟩, ⟨TokKind.otherTok, ":"⟩,
           ⟨TokKind.nameTok, "A"⟩, ⟨TokKind.dedentTok, ""⟩, ⟨TokKind.nameTok, "A"⟩]) :=
  ⟨rfl, c8_token_mirror_rewriting [("A", "ADict")] _ _ rfl⟩

/-- The walk of an empty queue is empty at any fuel. -/
theorem pyWalkF_nil (n : Nat) : pyWalkF n [] = [] := by cases n <;> rfl

/-- Every expression has positive weight. -/
theorem exprWeight_pos (e : PyExpr) : 1 ≤ exprWeight e := by
  cases e <;> simp [exprWeight] <;> omega

/-- Weight of a queue extension. -/
theorem exprListWeight_append (a b : List PyExpr) :
    exprListWeight (a ++ b) = exprListWeight a + exprListWeight b := by
  induction a with
  | nil => simp [exprListWeight]
  | cons e a2 ih => simp [exprListWeight, ih]; omega

/-- A left-nested chain extended on the right. -/
theorem buildChain_snoc (n0 : String) (xs : List String) (y : String) :
    buildChain n0 (xs ++ [y]) = .binOr (buildChain n0 xs) (.name y) := by
  simp [buildChain, List.foldl_append]

/-- `any` over the walk order of a chain's names. -/
theorem any_specAppendix (p : String → Bool) (n0 : String) (revNs : List String) (m : String) :
    (specAppendix n0 revNs m).any p = (p n0 || p m || revNs.any p) := by
  induction revNs generalizing m with
  | nil => simp [specAppendix]
  | cons nj revRest ih =>
    simp only [specAppendix, List.any_cons, ih]
    cases p n0 <;> cases p m <;> cases p nj <;> simp

/-- `any` over a reversed list. -/
theorem any_reverse (p : String → Bool) (l : List String) :
    l.reverse.any p = l.any p := by
  induction l with
  | nil => rfl
  | cons x xs ih =>
    simp only [List.reverse_cons, List.any_append, List.any_cons, ih]
    cases p x <;> cases xs.any p <;> simp

/-- The walk order of a union's bare names holds the same names as the
source order. -/
theorem any_bfsUnionOrder (p : String → Bool) (n0 : String) (rest : List String) :
    (bfsUnionOrder n0 rest).any p = (n0 :: rest).any p := by
  unfold bfsUnionOrder
  cases hrev : rest.reverse with
  | nil =>
    have hr : rest = [] := by simpa using congrArg List.reverse hrev
    subst hr
    simp
  | cons mk revMs =>
    have hr : rest = revMs.reverse ++ [mk] := by
      have := congrArg List.reverse hrev
      simpa using this
    rw [any_specAppendix, List.any_cons, hr, List.any_append, any_reverse]
    simp only [List.any_cons, List.any_nil]
    cases p n0 <;> cases p mk <;> cases revMs.any p <;> simp

/-- The scan of the tail queue `[chain, name m]` produced while walking a
bare-name union chain: the names are collected in the breadth-first order
`specAppendix`, nothing else changes, and the mirror check is the
disjunction over the collected names. -/
theorem scanChainQueue (repl : List (String × String)) (revNs : List String) :
    ∀ (n0 m : String) (st : UnionScan) (n : Nat),
      exprWeight (buildChain n0 revNs.reverse) + 1 ≤ n →
      List.foldlM (scanUnionChild repl) st
          (pyWalkF n ([buildChain n0 revNs.reverse, PyExpr.name m])) =
        .ok ⟨st.namedUnionMembers ++ specAppendix n0 revNs m,
             st.otherUnionMembers, st.optionalUnion,
             st.needsDictAlias ||
               (specAppendix n0 revNs m).any (fun x => (lookupStr repl x).isSome)⟩ := by
  induction revNs with
  | nil =>
    intro n0 m st n hn
    simp only [List.reverse_nil, buildChain, List.foldl_nil, exprWeight] at hn ⊢
    obtain ⟨n1, rfl⟩ : ∃ n1, n = n1 + 1 := ⟨n - 1, by omega⟩
    obtain ⟨n2, rfl⟩ : ∃ n2, n1 = n2 + 1 := ⟨n1 - 1, by omega⟩
    simp only [pyWalkF, pyChildren, List.nil_append, List.append_nil, pyWalkF_nil]
    simp only [List.foldlM_cons, scanUnionChild, List.foldlM_nil]
    simp only [exceptBind_ok]
    simp only [List.append_eq, List.nil_append]
    rw [pyWalkF_nil]
    simp only [List.foldlM_nil, specAppendix, List.any_cons, List.any_nil]
    simp only [Bool.or_assoc, Bool.or_false, List.append_assoc, List.cons_append,
      List.nil_append]
    rfl
  | cons nj revRest ih =>
    intro n0 m st n hn
    rw [List.reverse_cons, buildChain_snoc] at hn ⊢
    obtain ⟨n1, rfl⟩ : ∃ n1, n = n1 + 1 := ⟨n - 1, by omega⟩
    obtain ⟨n2, rfl⟩ : ∃ n2, n1 = n2 + 1 := by
      simp only [exprWeight] at hn
      have := exprWeight_pos (buildChain n0 revRest.reverse)
      exact ⟨n1 - 1, by omega⟩
    simp only [pyWalkF, pyChildren, List.nil_append, List.append_nil]
    simp only [List.foldlM_cons, scanUnionChild]
    simp only [exceptBind_ok]
    simp only [List.append_eq, List.nil_append]
    rw [ih n0 nj _ n2 (by simp only [exprWeight] at hn ⊢; omega)]
    simp only [specAppendix, List.any_cons]
    refine congrArg Except.ok ?_
    refine congrArg₂ (fun a b => UnionScan.mk a st.otherUnionMembers st.optionalUnion b) ?_ ?_
    · simp
    · cases st.needsDictAlias <;>
        cases (lookupStr repl m).isSome <;>
        cases (specAppendix n0 revRest nj).any (fun x => (lookupStr repl x).isSome) <;> simp

/-- The union walk of lines 505-531 over a bare-name union (with an
optional trailing `None`): the names are collected in breadth-first
order, no `Mapping` members or parse errors arise, the optional flag
mirrors the trailing `None`, and the mirror check is the disjunction of
the member lookups. -/
theorem scanUnion_buildUnion (repl : List (String × String)) (n0 : String)
    (rest : List String) (optNone : Bool) :
    scanUnion repl (buildUnion n0 rest optNone) =
      .ok ⟨bfsUnionOrder n0 rest, [], optNone,
        (bfsUnionOrder n0 rest).any (fun x => (lookupStr repl x).isSome)⟩ := by
  cases hrev : rest.reverse with
  | nil =>
    have hr : rest = [] := by simpa using congrArg List.reverse hrev
    subst hr
    cases optNone with
    | false =>
      simp only [buildUnion, buildChain, List.foldl_nil, if_neg (by simp : ¬(false = true))]
      simp only [scanUnion, pyWalk, exprListWeight, exprWeight]
      simp only [pyWalkF, pyChildren, List.nil_append, List.append_eq, pyWalkF_nil]
      simp only [List.foldlM_cons, List.foldlM_nil, scanUnionChild, exceptBind_ok]
      simp [bfsUnionOrder]
      rfl
    | true =>
      simp only [buildUnion, buildChain, List.foldl_nil, if_pos rfl]
      simp only [scanUnion, pyWalk, exprListWeight, exprWeight]
      simp only [pyWalkF, pyChildren, List.nil_append, List.append_eq, pyWalkF_nil]
      simp only [List.foldlM_cons, List.foldlM_nil, scanUnionChild, exceptBind_ok]
      simp [bfsUnionOrder]
  | cons mk revMs =>
    have hr : rest = revMs.reverse ++ [mk] := by
      have := congrArg List.reverse hrev
      simpa using this
    subst hr
    have hbfs : bfsUnionOrder n0 (revMs.reverse ++ [mk]) = specAppendix n0 revMs mk := by
      simp [bfsUnionOrder]
    cases optNone with
    | false =>
      rw [show buildUnion n0 (revMs.reverse ++ [mk]) false =
        PyExpr.binOr (buildChain n0 revMs.reverse) (PyExpr.name mk) from by
          simp [buildUnion, buildChain_snoc]]
      simp only [scanUnion, pyWalk]
      rw [show exprListWeight [PyExpr.binOr (buildChain n0 revMs.reverse) (PyExpr.name mk)] =
        exprWeight (buildChain n0 revMs.reverse) + 1 + 1 from by
          simp [exprListWeight, exprWeight]; omega]
      rw [show pyWalkF (exprWeight (buildChain n0 revMs.reverse) + 1 + 1)
            [PyExpr.binOr (buildChain n0 revMs.reverse) (PyExpr.name mk)] =
          PyExpr.binOr (buildChain n0 revMs.reverse) (PyExpr.name mk) ::
            pyWalkF (exprWeight (buildChain n0 revMs.reverse) + 1)
              [buildChain n0 revMs.reverse, PyExpr.name mk] from rfl]
      rw [List.foldlM_cons]
      rw [show scanUnionChild repl (⟨[], [], false, false⟩ : UnionScan)
            (PyExpr.binOr (buildChain n0 revMs.reverse) (PyExpr.name mk)) =
          Except.ok ⟨[], [], false, false⟩ from rfl]
      rw [exceptBind_ok]
      rw [scanChainQueue repl revMs n0 mk ⟨[], [], false, false⟩ _ (by omega)]
      rw [hbfs]
      simp
    | true =>
      rw [show buildUnion n0 (revMs.reverse ++ [mk]) true =
        PyExpr.binOr (PyExpr.binOr (buildChain n0 revMs.reverse) (PyExpr.name mk))
          PyExpr.constNone from by simp [buildUnion, buildChain_snoc]]
      simp only [scanUnion, pyWalk]
      rw [show exprListWeight [PyExpr.binOr (PyExpr.binOr (buildChain n0 revMs.reverse)
          (PyExpr.name mk)) PyExpr.constNone] =
        exprWeight (buildChain n0 revMs.reverse) + 1 + 1 + 1 + 1 from by
          simp [exprListWeight, exprWeight]; omega]
      rw [show pyWalkF (exprWeight (buildChain n0 revMs.reverse) + 1 + 1 + 1 + 1)
            [PyExpr.binOr (PyExpr.binOr (buildChain n0 revMs.reverse) (PyExpr.name mk))
              PyExpr.constNone] =
          PyExpr.binOr (PyExpr.binOr (buildChain n0 revMs.reverse) (PyExpr.name mk))
              PyExpr.constNone ::
            PyExpr.binOr (buildChain n0 revMs.reverse) (PyExpr.name mk) ::
            PyExpr.constNone ::
            pyWalkF (exprWeight (buildChain n0 revMs.reverse) + 1)
              [buildChain n0 revMs.reverse, PyExpr.name mk] from rfl]
      rw [List.foldlM_cons]
      rw [show scanUnionChild repl (⟨[], [], false, false⟩ : UnionScan)
            (PyExpr.binOr (PyExpr.binOr (buildChain n0 revMs.reverse) (PyExpr.name mk))
              PyExpr.constNone) =
          Except.ok ⟨[], [], false, false⟩ from rfl]
      rw [exceptBind_ok]
      rw [List.foldlM_cons]
      rw [show scanUnionChild repl (⟨[], [], false, false⟩ : UnionScan)
            (PyExpr.binOr (buildChain n0 revMs.reverse) (PyExpr.name mk)) =
          Except.ok ⟨[], [], false, false⟩ from rfl]
      rw [exceptBind_ok]
      rw [List.foldlM_cons]
      rw [show scanUnionChild repl (⟨[], [], false, false⟩ : UnionScan) PyExpr.constNone =
          Except.ok ⟨[], [], true, false⟩ from rfl]
      rw [exceptBind_ok]
      rw [scanChainQueue repl revMs n0 mk ⟨[], [], true, false⟩ _ (by omega)]
      rw [hbfs]
      simp

/-- `body[n:n] = (x,)` in take/drop form. -/
theorem insertAt_eq (n : Nat) (x : PyStmt) (l : List PyStmt) :
    insertAt n x l = l.take n ++ x :: l.drop n := by
  induction n generalizing l with
  | zero => simp [insertAt]
  | succ n ih =>
    cases l with
    | nil => simp [insertAt]
    | cons y ys => simp [insertAt, ih]

/-- A fold of `|`-nodes over a `BinOp` seed stays a `BinOp`. -/
theorem foldl_binOr_shape (rs : List String) :
    ∀ L R, ∃ L2 R2, List.foldl (fun acc m => PyExpr.binOr acc (.name m))
      (PyExpr.binOr L R) rs = PyExpr.binOr L2 R2 := by
  induction rs with
  | nil => intro L R; exact ⟨L, R, rfl⟩
  | cons r rs2 ih =>
    intro L R
    simpa [List.foldl_cons] using ih (PyExpr.binOr L R) (.name r)

/-- A union alias value with at least two members (or a trailing `None`)
is a `BinOp` node. -/
theorem buildUnion_binOr_shape (n0 : String) (rest : List String) (optNone : Bool)
    (hshape : rest ≠ [] ∨ optNone = true) :
    ∃ L R, buildUnion n0 rest optNone = PyExpr.binOr L R := by
  cases optNone with
  | true => exact ⟨buildChain n0 rest, .constNone, rfl⟩
  | false =>
    cases rest with
    | nil => simp at hshape
    | cons r rs =>
      simp only [buildUnion, if_neg (by simp : ¬(false = true)), buildChain, List.foldl_cons]
      exact foldl_binOr_shape rs (.name n0) (.name r)

/-- C6 (amended): for a top-level union type alias over bare names
(optionally with a trailing `None`) in which at least one member has a
recorded mirror, the loop records alias → aliasDict and schedules, at
index `bodyIdx + 1` (immediately after the alias declaration), an
`aliasDict` assignment whose value unions each walked member's
mirror-or-itself — in the breadth-first walk order `bfsUnionOrder`, which
lists the last member first when there are three or more members — with
the trailing `None` preserved; and the scheduled insertion at `idx + 1`
places the declaration immediately after position `idx`. -/
theorem c6_union_alias_mirror (st : LoopState) (idx : Nat) (aliasName n0 : String)
    (rest : List String) (optNone : Bool) (body : List PyStmt)
    (hshape : rest ≠ [] ∨ optNone = true)
    (hneeds : (n0 :: rest).any
      (fun x => (lookupStr st.dictTokenReplacements x).isSome) = true) :
    processStmt st idx (.assign aliasName (buildUnion n0 rest optNone)) =
      .ok (.assign aliasName (buildUnion n0 rest optNone),
        { st with
            dictTokenReplacements :=
              setStrField st.dictTokenReplacements aliasName (aliasName ++ "Dict"),
            additionalNodes := st.additionalNodes ++
              [(idx + 1, PyStmt.assign (aliasName ++ "Dict")
                (expectDictUnionExpr
                  (setStrField st.dictTokenReplacements aliasName (aliasName ++ "Dict"))
                  n0 rest optNone))] }) ∧
    insertAt (idx + 1)
      (PyStmt.assign (aliasName ++ "Dict")
        (expectDictUnionExpr
          (setStrField st.dictTokenReplacements aliasName (aliasName ++ "Dict"))
          n0 rest optNone)) body =
      body.take (idx + 1) ++
        PyStmt.assign (aliasName ++ "Dict")
          (expectDictUnionExpr
            (setStrField st.dictTokenReplacements aliasName (aliasName ++ "Dict"))
            n0 rest optNone) :: body.drop (idx + 1) := by
  refine ⟨?_, insertAt_eq (idx + 1) _ body⟩
  have hany : (bfsUnionOrder n0 rest).any
      (fun x => (lookupStr st.dictTokenReplacements x).isSome) = true := by
    rw [any_bfsUnionOrder]
    exact hneeds
  obtain ⟨L, R, hLR⟩ := buildUnion_binOr_shape n0 rest optNone hshape
  rw [hLR]
  simp only [processStmt]
  rw [← hLR, scanUnion_buildUnion]
  cases hbfs : bfsUnionOrder n0 rest with
  | nil => rw [hbfs] at hany; simp at hany
  | cons first restM =>
    rw [hbfs] at hany
    simp only [hany, if_pos]
    simp only [expectDictUnionExpr, hbfs, List.map_cons, mirrorOrSelf]
    cases optNone with
    | false =>
      simp only [buildUnion, if_neg (by simp : ¬(false = true)), buildChain, List.foldl_map,
        List.foldl_nil]
      rfl
    | true =>
      simp only [buildUnion, if_pos rfl, buildChain, List.foldl_map, List.foldl_nil]
      rfl

/-- Witness for C6 at a concrete input: `X = A | B | C | None` with
mirror `A → ADict` recorded: `XDict` is scheduled at index 3 with value
`CDict-or-C | A-mirror | B-mirror | None` in walk order, and the
insertion lands immediately after position 2. -/
theorem c6_union_alias_mirror_witness :
    processStmt ⟨["A"], [("A", "ADict")], ["A", "ADict"], []⟩ 2
      (.assign "X" (buildUnion "A" ["B", "C"] true)) =
      .ok (.assign "X" (buildUnion "A" ["B", "C"] true),
        ⟨["A"], [("A", "ADict"), ("X", "XDict")], ["A", "ADict"],
         [(3, PyStmt.assign "XDict"
            (expectDictUnionExpr [("A", "ADict"), ("X", "XDict")] "A" ["B", "C"] true))]⟩) ∧
    insertAt 3
      (PyStmt.assign "XDict"
        (expectDictUnionExpr [("A", "ADict"), ("X", "XDict")] "A" ["B", "C"] true))
      [.other, .other, .other, .other] =
      ([.other, .other, .other, .other] : List PyStmt).take 3 ++
        PyStmt.assign "XDict"
          (expectDictUnionExpr [("A", "ADict"), ("X", "XDict")] "A" ["B", "C"] true) ::
        ([.other, .other, .other, .other] : List PyStmt).drop 3 :=
  c6_union_alias_mirror ⟨["A"], [("A", "ADict")], ["A", "ADict"], []⟩ 2 "X" "A"
    ["B", "C"] true [.other, .other, .other, .other] (Or.inr rfl) (by rfl)

/-- Counterexample for C6 as frozen: a union alias with a
`Mapping[str, int]` member — a "Mapping[...] subscript", which the claim
lists among the accepted member shapes — makes the pass raise its fatal
union-parse error (only `Mapping[str, str]`'s slice tuple matches the
walker's structural patterns). -/
theorem c6_union_alias_mirror_counterexample :
    processModule mappingIntUnionModule = .error "RuntimeError: Failed to parse union node" :=
  rfl

mutual

/-- Renaming maps every expression site through the override. -/
theorem exprSites_renameExpr (ov : String → Option String) :
    ∀ e, exprSites (renameExpr ov e) = (exprSites e).map (fun n => (ov n).getD n)
  | .name n => by simp [renameExpr, exprSites]
  | .constStr s => by simp [renameExpr, exprSites]
  | .constNone => by simp [renameExpr, exprSites]
  | .subscript v i => by
    simp [renameExpr, exprSites, exprSites_renameExpr ov v, exprSites_renameExpr ov i]
  | .binOr l r => by
    simp [renameExpr, exprSites, exprSites_renameExpr ov l, exprSites_renameExpr ov r]
  | .tuple es => by
    simp [renameExpr, exprSites, exprSitesList_renameExprList ov es]

/-- Renaming maps every site of an expression list through the override. -/
theorem exprSitesList_renameExprList (ov : String → Option String) :
    ∀ es, exprSitesList (renameExprList ov es) =
      (exprSitesList es).map (fun n => (ov n).getD n)
  | [] => rfl
  | e :: es => by
    simp [renameExprList, exprSitesList, exprSites_renameExpr ov e,
      exprSitesList_renameExprList ov es]

end

/-- No value of the override table is itself a key. -/
theorem overrides_values_not_keys :
    dataModelNameOverrides.all (fun p => (lookupOverride p.2).isNone) = true := rfl

/-- Every `Dict`-suffixed key of the override table has its stem in the
table too. -/
theorem overrides_dict_keys_have_stems :
    dataModelNameOverrides.all (fun p =>
      !strEndsWith p.1 "Dict" || (lookupOverride (pyRemoveSuffix p.1 "Dict")).isSome) = true := rfl

/-- No builtin name is a key of the override table. -/
theorem builtins_not_override_keys :
    builtinNames.all (fun b => (lookupOverride b).isNone) = true := rfl

/-- A successful string lookup produces a member of the table. -/
theorem lookupStr_mem (m : List (String × String)) (k v : String)
    (h : lookupStr m k = some v) : (k, v) ∈ m := by
  induction m with
  | nil => simp [lookupStr] at h
  | cons p rest ih =>
    obtain ⟨k2, w⟩ := p
    simp only [lookupStr] at h
    by_cases hk : k2 = k
    · rw [if_pos hk] at h
      cases h
      subst hk
      exact List.mem_cons_self _ _
    · rw [if_neg hk] at h
      exact List.mem_cons_of_mem _ (ih h)

/-- An overridden name's replacement is never itself an overridden name. -/
theorem overrideName_not_key (n : String) : lookupOverride (overrideName n) = none := by
  unfold overrideName
  cases hn : lookupOverride n with
  | none => simpa using hn
  | some v =>
    have hmem := lookupStr_mem dataModelNameOverrides n v hn
    have hall := List.all_eq_true.mp overrides_values_not_keys _ hmem
    simpa [Option.isNone_iff_eq_none] using hall

/-- `s ++ "Dict"` ends in `"Dict"`. -/
theorem strEndsWith_append_dict (s : String) : strEndsWith (s ++ "Dict") "Dict" = true := by
  simp only [strEndsWith, String.data_append]
  exact List.isSuffixOf_iff_suffix.mpr (List.suffix_append _ _)

/-- Removing the `"Dict"` suffix from `s ++ "Dict"` gives back `s`. -/
theorem pyRemoveSuffix_append_dict (s : String) : pyRemoveSuffix (s ++ "Dict") "Dict" = s := by
  simp only [pyRemoveSuffix, strEndsWith_append_dict, if_pos, String.data_append]
  have hlen : (s.data ++ "Dict".data).length - "Dict".data.length = s.data.length := by
    simp
  rw [hlen, List.take_left]

/-- If a name is not overridden, neither is its `Dict` companion. -/
theorem dict_companion_not_key (s : String) (hs : lookupOverride s = none) :
    lookupOverride (s ++ "Dict") = none := by
  cases hd : lookupOverride (s ++ "Dict") with
  | none => rfl
  | some v =>
    exfalso
    have hmem := lookupStr_mem dataModelNameOverrides (s ++ "Dict") v hd
    have hall := List.all_eq_true.mp overrides_dict_keys_have_stems _ hmem
    rw [strEndsWith_append_dict, pyRemoveSuffix_append_dict] at hall
    simp only [Bool.not_true, Bool.false_or, Option.isSome_iff_exists] at hall
    obtain ⟨w, hw⟩ := hall
    rw [hs] at hw
    cases hw

/-- `renameExprList` is the elementwise rename. -/
theorem renameExprList_eq_map (ov : String → Option String) :
    ∀ es, renameExprList ov es = es.map (renameExpr ov)
  | [] => rfl
  | e :: es => by simp [renameExprList, renameExprList_eq_map ov es]

/-- Expression-list sites distribute over append. -/
theorem exprSitesList_append :
    ∀ a b : List PyExpr, exprSitesList (a ++ b) = exprSitesList a ++ exprSitesList b
  | [], _ => rfl
  | e :: a, b => by simp [exprSitesList, exprSitesList_append a b]

/-- A child node's sites are sites of its parent. -/
theorem exprSites_children (e : PyExpr) (x : String)
    (h : x ∈ exprSitesList (pyChildren e)) : x ∈ exprSites e := by
  cases e <;> simp_all [pyChildren, exprSites, exprSitesList, exprSitesList_append]

/-- Sites of any node yielded by the breadth-first walk are sites of the
queue. -/
theorem pyWalkF_sites :
    ∀ (n : Nat) (q : List PyExpr) (e2 : PyExpr), e2 ∈ pyWalkF n q →
      ∀ x ∈ exprSites e2, x ∈ exprSitesList q
  | 0, _, _, h => by simp [pyWalkF] at h
  | _ + 1, [], _, h => by simp [pyWalkF] at h
  | n + 1, e :: q, e2, h => by
    rw [show pyWalkF (n + 1) (e :: q) = e :: pyWalkF n (q ++ pyChildren e) from rfl] at h
    intro x hx
    rcases List.mem_cons.mp h with he | htl
    · subst he
      simp [exprSitesList, hx]
    · have := pyWalkF_sites n (q ++ pyChildren e) e2 htl x hx
      rw [exprSitesList_append] at this
      rcases List.mem_append.mp this with hq | hc
      · simp [exprSitesList, hq]
      · simp [exprSitesList, exprSites_children e x hc]

/-- Membership after a string-dict assignment: the new pair or an old one. -/
theorem setStrField_mem :
    ∀ (m : List (String × String)) (k v : String) (p : String × String),
      p ∈ setStrField m k v → p = (k, v) ∨ p ∈ m
  | [], k, v, p, h => by simpa [setStrField] using h
  | (k2, w) :: rest, k, v, p, h => by
    simp only [setStrField] at h
    by_cases hk : k2 = k
    · rw [if_pos hk] at h
      subst hk
      rcases List.mem_cons.mp h with hp | hp
      · exact Or.inl hp
      · exact Or.inr (List.mem_cons_of_mem _ hp)
    · rw [if_neg hk] at h
      rcases List.mem_cons.mp h with hp | hp
      · exact Or.inr (by simp [hp])
      · rcases setStrField_mem rest k v p hp with h2 | h2
        · exact Or.inl h2
        · exact Or.inr (List.mem_cons_of_mem _ h2)

/-- Membership after a positional insertion. -/
theorem insertAt_mem :
    ∀ (n : Nat) (x : PyStmt) (l : List PyStmt) (s : PyStmt),
      s ∈ insertAt n x l → s = x ∨ s ∈ l
  | 0, x, l, s, h => by simpa [insertAt] using h
  | _ + 1, x, [], s, h => by simpa [insertAt] using h
  | n + 1, x, y :: ys, s, h => by
    simp only [insertAt] at h
    rcases List.mem_cons.mp h with hy | hy
    · exact Or.inr (by simp [hy])
    · rcases insertAt_mem n x ys s hy with h2 | h2
      · exact Or.inl h2
      · exact Or.inr (List.mem_cons_of_mem _ h2)

/-- Membership after a fold of positional insertions. -/
theorem foldl_insertAt_mem :
    ∀ (ns : List (Nat × PyStmt)) (b : List PyStmt) (s : PyStmt),
      s ∈ ns.foldl (fun acc p => insertAt p.1 p.2 acc) b →
        s ∈ b ∨ ∃ q ∈ ns, s = q.2
  | [], b, s, h => Or.inl h
  | n :: ns, b, s, h => by
    rcases foldl_insertAt_mem ns (insertAt n.1 n.2 b) s h with hb | ⟨q, hq, hs⟩
    · rcases insertAt_mem n.1 n.2 b s hb with h2 | h2
      · exact Or.inr ⟨n, by simp, h2⟩
      · exact Or.inl h2
    · exact Or.inr ⟨q, List.mem_cons_of_mem _ hq, hs⟩

/-- A statement of the inserted module comes from the loop output or from
one of the scheduled insertions. -/
theorem applyInsertions_mem (b : List PyStmt) (ns : List (Nat × PyStmt)) (s : PyStmt)
    (h : s ∈ applyInsertions b ns) : s ∈ b ∨ ∃ q ∈ ns, s = q.2 := by
  rcases foldl_insertAt_mem ns.reverse b s h with hb | ⟨q, hq, hs⟩
  · exact Or.inl hb
  · exact Or.inr ⟨q, List.mem_reverse.mp hq, hs⟩

/-- Sites of the named-member fold of the Dict-union synthesizer. -/
theorem chain_foldl_sites (f : String → String) :
    ∀ (l : List String) (acc : PyExpr),
      exprSites (l.foldl (fun a mem => PyExpr.binOr a (.name (f mem))) acc) =
        exprSites acc ++ l.map f
  | [], acc => by simp
  | m :: l, acc => by
    simp only [List.foldl_cons, chain_foldl_sites f l, exprSites, List.map_cons]
    simp

/-- Sites of the other-members fold of the Dict-union synthesizer. -/
theorem others_foldl_sites :
    ∀ (l : List PyExpr) (acc : PyExpr),
      exprSites (l.foldl (fun a o => PyExpr.binOr a o) acc) =
        exprSites acc ++ exprSitesList l
  | [], acc => by simp [exprSitesList]
  | o :: l, acc => by
    simp only [List.foldl_cons, others_foldl_sites l, exprSites, exprSitesList]
    simp

/-- One union-walk step only appends: every collected name is old or a
site of the child, every collected other member is old or the child. -/
theorem scanUnionChild_mono (d : List (String × String)) (st : UnionScan)
    (ch : PyExpr) (st2 : UnionScan) (h : scanUnionChild d st ch = .ok st2) :
    (∀ x ∈ st2.namedUnionMembers, x ∈ st.namedUnionMembers ∨ x ∈ exprSites ch) ∧
    (∀ o ∈ st2.otherUnionMembers, o ∈ st.otherUnionMembers ∨ o = ch) := by
  cases ch <;> simp only [scanUnionChild] at h <;> repeat' split at h <;>
    try (simp_all; done)
  all_goals cases h
  all_goals refine ⟨fun x hx => ?_, fun o ho => ?_⟩
  all_goals first
  | exact Or.inl hx
  | exact Or.inl ho
  | (simp only [List.mem_append, List.mem_singleton] at hx
     rcases hx with h2 | h2
     · exact Or.inl h2
     · subst h2
       exact Or.inr (by simp [exprSites]))
  | (simp only [List.mem_append, List.mem_singleton] at ho
     rcases ho with h2 | h2
     · exact Or.inl h2
     · exact Or.inr h2)

/-- The union-walk fold only appends, accumulated over a child list. -/
theorem scan_foldlM_mono (d : List (String × String)) :
    ∀ (ws : List PyExpr) (st sc : UnionScan),
      List.foldlM (scanUnionChild d) st ws = .ok sc →
      (∀ x ∈ sc.namedUnionMembers,
        x ∈ st.namedUnionMembers ∨ ∃ e ∈ ws, x ∈ exprSites e) ∧
      (∀ o ∈ sc.otherUnionMembers, o ∈ st.otherUnionMembers ∨ o ∈ ws)
  | [], st, sc, h => by
    simp only [List.foldlM_nil] at h
    cases h
    exact ⟨fun x hx => Or.inl hx, fun o ho => Or.inl ho⟩
  | w :: ws, st, sc, h => by
    simp only [List.foldlM_cons] at h
    cases hstep : scanUnionChild d st w with
    | error e => rw [hstep, exceptBind_error] at h; cases h
    | ok st1 =>
      rw [hstep, exceptBind_ok] at h
      have hm := scanUnionChild_mono d st w st1 hstep
      have hr := scan_foldlM_mono d ws st1 sc h
      constructor
      · intro x hx
        rcases hr.1 x hx with h1 | ⟨e, he, hxe⟩
        · rcases hm.1 x h1 with h2 | h2
          · exact Or.inl h2
          · exact Or.inr ⟨w, by simp, h2⟩
        · exact Or.inr ⟨e, List.mem_cons_of_mem _ he, hxe⟩
      · intro o ho
        rcases hr.2 o ho with h1 | h1
        · rcases hm.2 o h1 with h2 | h2
          · exact Or.inl h2
          · exact Or.inr (by simp [h2])
        · exact Or.inr (List.mem_cons_of_mem _ h1)

/-- Everything the union walk collects lives among the sites of the
walked union expression. -/
theorem scanUnion_sites (d : List (String × String)) (v : PyExpr) (sc : UnionScan)
    (h : scanUnion d v = .ok sc) :
    (∀ x ∈ sc.namedUnionMembers, x ∈ exprSites v) ∧
    (∀ o ∈ sc.otherUnionMembers, ∀ x ∈ exprSites o, x ∈ exprSites v) := by
  have hm := scan_foldlM_mono d (pyWalk [v]) ⟨[], [], false, false⟩ sc h
  have hq : ∀ e2 ∈ pyWalk [v], ∀ x ∈ exprSites e2, x ∈ exprSites v := by
    intro e2 he2 x hx
    have := pyWalkF_sites (exprListWeight [v]) [v] e2 he2 x hx
    simpa [exprSitesList] using this
  constructor
  · intro x hx
    rcases hm.1 x hx with h1 | ⟨e, he, hxe⟩
    · simp at h1
    · exact hq e he x hxe
  · intro o ho x hx
    rcases hm.2 o ho with h1 | h1
    · simp at h1
    · exact hq o h1 x hx

/-- A site of an expression list is a site of one of its members. -/
theorem exprSitesList_mem :
    ∀ (l : List PyExpr) (x : String), x ∈ exprSitesList l → ∃ e ∈ l, x ∈ exprSites e
  | [], x, h => by simp [exprSitesList] at h
  | e :: l, x, h => by
    simp only [exprSitesList] at h
    rcases List.mem_append.mp h with h2 | h2
    · exact ⟨e, by simp, h2⟩
    · obtain ⟨e2, he2, hx⟩ := exprSitesList_mem l x h2
      exact ⟨e2, List.mem_cons_of_mem _ he2, hx⟩

/-- Sites of an elementwise-renamed expression list. -/
theorem exprSitesList_map_rename (ov : String → Option String) (l : List PyExpr) :
    exprSitesList (l.map (renameExpr ov)) = (exprSitesList l).map (fun n => (ov n).getD n) := by
  rw [← renameExprList_eq_map, exprSitesList_renameExprList]

/-- Sites of a walk-renamed class declaration whose name was replaced by
its override: exactly the original sites mapped through the override. -/
theorem classDef_sites_renamed (n : String) (fields : List (String × PyExpr))
    (d d0 : Option String) :
    stmtSites (.classDef ((lookupOverride n).getD n) d
      (fields.map (fun f => ((lookupOverride f.1).getD f.1, renameExpr lookupOverride f.2)))) =
      (stmtSites (.classDef n d0 fields)).map overrideName := by
  simp only [stmtSites, List.map_cons, List.map_append, List.map_map]
  refine congrArg₂ _ rfl (congrArg₂ _ rfl ?_)
  calc exprSitesList (fields.map (Prod.snd ∘ fun f =>
          ((lookupOverride f.1).getD f.1, renameExpr lookupOverride f.2)))
      = exprSitesList ((fields.map Prod.snd).map (renameExpr lookupOverride)) := by
        rw [List.map_map]
        exact rfl
    _ = (exprSitesList (fields.map Prod.snd)).map (fun x => (lookupOverride x).getD x) :=
        exprSitesList_map_rename _ _
    _ = (exprSitesList (fields.map Prod.snd)).map overrideName := rfl

/-- One loop step on a walk-renamed statement: the output statement's
sites are the input's sites mapped through the override, and no
DictTokenReplacements value and no scheduled insertion site is an
override key, provided none was before. -/
theorem processStmt_keyfree (st : LoopState) (idx : Nat) (s0 s2 : PyStmt) (st2 : LoopState)
    (h : processStmt st idx (renameStmtWalk lookupOverride s0) = .ok (s2, st2))
    (hrepl : ∀ p ∈ st.dictTokenReplacements, lookupOverride p.2 = none)
    (hadd : ∀ q ∈ st.additionalNodes, ∀ n ∈ stmtSites q.2, lookupOverride n = none) :
    stmtSites s2 = (stmtSites s0).map overrideName ∧
    (∀ p ∈ st2.dictTokenReplacements, lookupOverride p.2 = none) ∧
    (∀ q ∈ st2.additionalNodes, ∀ n ∈ stmtSites q.2, lookupOverride n = none) := by
  cases s0 with
  | other =>
    simp only [renameStmtWalk, processStmt] at h
    cases h
    exact ⟨rfl, hrepl, hadd⟩
  | classDef n doc fields =>
    simp only [renameStmtWalk, processStmt] at h
    repeat' split at h
    all_goals cases h
    all_goals refine ⟨classDef_sites_renamed n fields _ _, ?_, ?_⟩
    all_goals first
    | exact hrepl
    | exact hadd
    | (intro p hp
       rcases setStrField_mem _ _ _ _ hp with rfl | hold
       · exact overrideName_not_key n
       · exact hrepl _ hold)
  | assign t v =>
    simp only [renameStmtWalk] at h
    have hsit : exprSites (renameExpr lookupOverride v) = (exprSites v).map overrideName := by
      simpa [overrideName] using exprSites_renameExpr lookupOverride v
    have hkf : ∀ x ∈ exprSites (renameExpr lookupOverride v), lookupOverride x = none := by
      intro x hx
      rw [hsit] at hx
      obtain ⟨y, _, rfl⟩ := List.mem_map.mp hx
      exact overrideName_not_key y
    generalize hgw : renameExpr lookupOverride v = w at h hsit hkf
    simp only [processStmt] at h
    repeat' split at h
    all_goals cases h
    all_goals refine ⟨by simp [stmtSites, hsit, overrideName], ?_, ?_⟩
    case assign.h_1.isTrue.refl.refine_1 =>
      intro p hp
      rcases setStrField_mem _ _ _ _ hp with rfl | hold
      · exact hkf _ (by simp [exprSites, exprSitesList])
      · exact hrepl _ hold
    case assign.h_1.isTrue.refl.refine_2 => exact hadd
    case assign.h_1.isFalse.h_1.refl.refine_1 =>
      rename_i dictName heq
      intro p hp
      rcases setStrField_mem _ _ _ _ hp with rfl | hold
      · have hm := hrepl _ (lookupStr_mem _ _ _ heq)
        exact hm
      · exact hrepl _ hold
    case assign.h_1.isFalse.h_1.refl.refine_2 => exact hadd
    case assign.h_1.isFalse.h_2.refl.refine_1 => exact hrepl
    case assign.h_1.isFalse.h_2.refl.refine_2 => exact hadd
    case assign.h_2.isTrue.refl.refine_1 =>
      intro p hp
      rcases setStrField_mem _ _ _ _ hp with rfl | hold
      · exact hkf _ (by simp [exprSites, exprSitesList])
      · exact hrepl _ hold
    case assign.h_2.isTrue.refl.refine_2 => exact hadd
    case assign.h_2.isFalse.h_1.refl.refine_1 =>
      rename_i dictName heq
      intro p hp
      rcases setStrField_mem _ _ _ _ hp with rfl | hold
      · have hm := hrepl _ (lookupStr_mem _ _ _ heq)
        exact hm
      · exact hrepl _ hold
    case assign.h_2.isFalse.h_1.refl.refine_2 => exact hadd
    case assign.h_2.isFalse.h_2.refl.refine_1 => exact hrepl
    case assign.h_2.isFalse.h_2.refl.refine_2 => exact hadd
    case assign.h_3.h_2.isFalse.refl.refine_1 => exact hrepl
    case assign.h_3.h_2.isFalse.refl.refine_2 => exact hadd
    case assign.h_4.refl.refine_1 => exact hrepl
    case assign.h_4.refl.refine_2 => exact hadd
    case assign.h_3.h_2.isTrue.h_2.isTrue.refl.refine_1 =>
      intro p hp
      rcases setStrField_mem _ _ _ _ hp with rfl | hold
      · exact dict_companion_not_key _ (overrideName_not_key t)
      · exact hrepl _ hold
    case assign.h_3.h_2.isTrue.h_2.isFalse.refl.refine_1 =>
      intro p hp
      rcases setStrField_mem _ _ _ _ hp with rfl | hold
      · exact dict_companion_not_key _ (overrideName_not_key t)
      · exact hrepl _ hold
    case assign.h_3.h_2.isTrue.h_2.isTrue.refl.refine_2 =>
      rename_i sc hscan hneed xnm fm rm hnamed hopt
      intro q hq
      rcases List.mem_append.mp hq with hold | hnew
      · exact hadd q hold
      · simp only [List.mem_singleton] at hnew
        subst hnew
        intro x hx
        simp only [stmtSites, List.mem_cons] at hx
        rcases hx with rfl | hx
        · exact dict_companion_not_key _ (overrideName_not_key t)
        · have hsites := scanUnion_sites _ _ _ hscan
          simp only [exprSites, List.append_nil, others_foldl_sites, chain_foldl_sites,
            List.mem_append, List.mem_cons, List.mem_singleton, List.mem_map,
            List.not_mem_nil, or_false, false_or] at hx
          have hmemb : ∀ mem, mem ∈ fm :: rm →
              lookupOverride ((lookupStr (setStrField st.dictTokenReplacements
                ((lookupOverride t).getD t) ((lookupOverride t).getD t ++ "Dict"))
                mem).getD mem) = none := by
            intro mem hmem
            cases hls : lookupStr (setStrField st.dictTokenReplacements
                ((lookupOverride t).getD t) ((lookupOverride t).getD t ++ "Dict")) mem with
            | some dd =>
              simp only [Option.getD_some]
              rcases setStrField_mem _ _ _ _ (lookupStr_mem _ _ _ hls) with hpair | holdp
              · cases hpair
                exact dict_companion_not_key _ (overrideName_not_key t)
              · have hm := hrepl _ holdp
                exact hm
            | none =>
              simp only [Option.getD_none]
              refine hkf mem (hsites.1 mem ?_)
              rw [hnamed]
              exact hmem
          rcases hx with (hx1 | ⟨mem, hmem, rfl⟩) | hx3
          · subst hx1
            exact hmemb fm (by simp)
          · exact hmemb mem (List.mem_cons_of_mem _ hmem)
          · obtain ⟨e2, he2, hxe⟩ := exprSitesList_mem _ _ hx3
            exact hkf x (hsites.2 e2 he2 x hxe)
    case assign.h_3.h_2.isTrue.h_2.isFalse.refl.refine_2 =>
      rename_i sc hscan hneed xnm fm rm hnamed hopt
      intro q hq
      rcases List.mem_append.mp hq with hold | hnew
      · exact hadd q hold
      · simp only [List.mem_singleton] at hnew
        subst hnew
        intro x hx
        simp only [stmtSites, List.mem_cons] at hx
        rcases hx with rfl | hx
        · exact dict_companion_not_key _ (overrideName_not_key t)
        · have hsites := scanUnion_sites _ _ _ hscan
          simp only [others_foldl_sites, chain_foldl_sites,
            List.mem_append, List.mem_cons, List.mem_singleton, List.mem_map,
            exprSites, List.not_mem_nil, or_false, false_or] at hx
          have hmemb : ∀ mem, mem ∈ fm :: rm →
              lookupOverride ((lookupStr (setStrField st.dictTokenReplacements
                ((lookupOverride t).getD t) ((lookupOverride t).getD t ++ "Dict"))
                mem).getD mem) = none := by
            intro mem hmem
            cases hls : lookupStr (setStrField st.dictTokenReplacements
                ((lookupOverride t).getD t) ((lookupOverride t).getD t ++ "Dict")) mem with
            | some dd =>
              simp only [Option.getD_some]
              rcases setStrField_mem _ _ _ _ (lookupStr_mem _ _ _ hls) with hpair | holdp
              · cases hpair
                exact dict_companion_not_key _ (overrideName_not_key t)
              · have hm := hrepl _ holdp
                exact hm
            | none =>
              simp only [Option.getD_none]
              refine hkf mem (hsites.1 mem ?_)
              rw [hnamed]
              exact hmem
          rcases hx with (hx1 | ⟨mem, hmem, rfl⟩) | hx3
          · subst hx1
            exact hmemb fm (by simp)
          · exact hmemb mem (List.mem_cons_of_mem _ hmem)
          · obtain ⟨e2, he2, hxe⟩ := exprSitesList_mem _ _ hx3
            exact hkf x (hsites.2 e2 he2 x hxe)

/-- The top-level loop over a walk-renamed module preserves the key-free
invariants and maps every statement's sites through the override. -/
theorem processTopLevel_keyfree :
    ∀ (m : List PyStmt) (st : LoopState) (idx : Nat) (outs : List PyStmt) (stF : LoopState),
    processTopLevel st idx (m.map (renameStmtWalk lookupOverride)) = .ok (outs, stF) →
    (∀ p ∈ st.dictTokenReplacements, lookupOverride p.2 = none) →
    (∀ q ∈ st.additionalNodes, ∀ n ∈ stmtSites q.2, lookupOverride n = none) →
    outs.map stmtSites = m.map (fun s => (stmtSites s).map overrideName) ∧
    (∀ p ∈ stF.dictTokenReplacements, lookupOverride p.2 = none) ∧
    (∀ q ∈ stF.additionalNodes, ∀ n ∈ stmtSites q.2, lookupOverride n = none)
  | [], st, idx, outs, stF, h, hrepl, hadd => by
    simp only [List.map_nil, processTopLevel] at h
    cases h
    exact ⟨rfl, hrepl, hadd⟩
  | s0 :: m, st, idx, outs, stF, h, hrepl, hadd => by
    simp only [List.map_cons, processTopLevel] at h
    cases hps : processStmt st idx (renameStmtWalk lookupOverride s0) with
    | error e =>
      simp only [hps] at h
      cases h
    | ok pair =>
      obtain ⟨s2, st2⟩ := pair
      simp only [hps] at h
      cases hrec : processTopLevel st2 (idx + 1) (m.map (renameStmtWalk lookupOverride)) with
      | error e =>
        simp only [hrec] at h
        cases h
      | ok pr =>
        obtain ⟨rest2, stF2⟩ := pr
        simp only [hrec] at h
        cases h
        have hstep := processStmt_keyfree st idx s0 s2 st2 hps hrepl hadd
        have hr := processTopLevel_keyfree m st2 (idx + 1) rest2 stF hrec hstep.2.1 hstep.2.2
        exact ⟨by simp [hstep.1, hr.1], hr.2.1, hr.2.2⟩

/-- C7: rename completeness.  After the whole-tree rename and the
top-level loop, every output statement's name sites (identifiers, field
and assignment targets, class names, string forward references) are
exactly the original sites mapped through the Name Override Table, and in
the final statement list with the scheduled Dict-alias insertions
applied, no site of any statement is a key of the override table. -/
theorem c7_rename_completeness (m outs : List PyStmt) (st : LoopState)
    (h : processModuleCore m = .ok (outs, st)) :
    outs.map stmtSites = m.map (fun s => (stmtSites s).map overrideName) ∧
    (∀ k v, lookupOverride k = some v →
      ∀ s ∈ applyInsertions outs st.additionalNodes, ¬ k ∈ stmtSites s) := by
  unfold processModuleCore at h
  have hr := processTopLevel_keyfree m initLoopState 0 outs st h
    (by intro p hp; simp [initLoopState] at hp)
    (by intro q hq; simp [initLoopState] at hq)
  refine ⟨hr.1, ?_⟩
  intro k v hk s hs hmem
  rcases applyInsertions_mem outs st.additionalNodes s hs with hout | ⟨q, hq, rfl⟩
  · have hsm : stmtSites s ∈ outs.map stmtSites := List.mem_map_of_mem _ hout
    rw [hr.1] at hsm
    obtain ⟨s0, _, heq⟩ := List.mem_map.mp hsm
    rw [← heq] at hmem
    obtain ⟨y, _, hy⟩ := List.mem_map.mp hmem
    have hnk := overrideName_not_key y
    rw [hy, hk] at hnk
    cases hnk
  · have hnk := hr.2.2 q hq k hmem
    rw [hk] at hnk
    cases hnk

/-- C7 witness: the rename-completeness theorem applied to a concrete
module exercising an overridden structured class, its overridden Dict
mirror and a synthesized Dict-alias insertion. -/
theorem c7_rename_completeness_witness :
    processModuleCore renameWitnessModule = .ok
      ([.classDef "TextData" none [("text", .name "str")],
        .classDef "TextDataDict" (some "Corresponds to TextDataDict") [],
        .assign "TextLike" (.binOr (.name "TextData") .constNone)],
       ⟨["TextData"],
        [("TextData", "TextDataDict"), ("TextLike", "TextLikeDict")],
        ["TextData", "TextDataDict"],
        [(3, .assign "TextLikeDict" (.binOr (.name "TextDataDict") .constNone))]⟩) ∧
    ([PyStmt.classDef "TextData" none [("text", .name "str")],
      .classDef "TextDataDict" (some "Corresponds to TextDataDict") [],
      .assign "TextLike" (.binOr (.name "TextData") .constNone)].map stmtSites =
        renameWitnessModule.map (fun s => (stmtSites s).map overrideName) ∧
      (∀ k v, lookupOverride k = some v →
        ∀ s ∈ applyInsertions
          [PyStmt.classDef "TextData" none [("text", .name "str")],
           .classDef "TextDataDict" (some "Corresponds to TextDataDict") [],
           .assign "TextLike" (.binOr (.name "TextData") .constNone)]
          [(3, .assign "TextLikeDict" (.binOr (.name "TextDataDict") .constNone))],
          ¬ k ∈ stmtSites s)) :=
  ⟨rfl, c7_rename_completeness renameWitnessModule
    [.classDef "TextData" none [("text", .name "str")],
     .classDef "TextDataDict" (some "Corresponds to TextDataDict") [],
     .assign "TextLike" (.binOr (.name "TextData") .constNone)]
    ⟨["TextData"],
     [("TextData", "TextDataDict"), ("TextLike", "TextLikeDict")],
     ["TextData", "TextDataDict"],
     [(3, .assign "TextLikeDict" (.binOr (.name "TextDataDict") .constNone))]⟩
    rfl⟩

/-- Dict assignment: looking up the assigned key yields the new value. -/
theorem lookupField_setField_self :
    ∀ (fs : List (String × Json)) (k : String) (v : Json),
      lookupField (setField fs k v) k = some v
  | [], k, v => by simp [setField, lookupField]
  | (k2, w) :: rest, k, v => by
    simp only [setField]
    by_cases hk : k2 = k
    · rw [if_pos hk]
      simp [lookupField, hk]
    · rw [if_neg hk]
      simp only [lookupField, if_neg hk]
      exact lookupField_setField_self rest k v

/-- Dict assignment leaves other keys' lookups unchanged. -/
theorem lookupField_setField_ne :
    ∀ (fs : List (String × Json)) (k k2 : String) (v : Json), ¬ k2 = k →
      lookupField (setField fs k v) k2 = lookupField fs k2
  | [], k, k2, v, hne => by
    simp only [setField, lookupField]
    rw [if_neg (fun hkk => hne hkk.symm)]
  | (k3, w) :: rest, k, k2, v, hne => by
    simp only [setField]
    by_cases hk : k3 = k
    · rw [if_pos hk]
      simp only [lookupField]
      by_cases h32 : k3 = k2
      · exact absurd (h32.symm.trans hk) hne
      · rw [if_neg h32, if_neg h32]
    · rw [if_neg hk]
      simp only [lookupField]
      by_cases h32 : k3 = k2
      · rw [if_pos h32, if_pos h32]
      · rw [if_neg h32, if_neg h32]
        exact lookupField_setField_ne rest k k2 v hne

/-- Lookup over a dict append: the left dict wins. -/
theorem lookupField_append :
    ∀ (fs l : List (String × Json)) (k : String),
      lookupField (fs ++ l) k =
        match lookupField fs k with
        | some v => some v
        | none => lookupField l k
  | [], l, k => by simp [lookupField]
  | (k2, w) :: rest, l, k => by
    simp only [List.cons_append, lookupField]
    by_cases hk : k2 = k
    · rw [if_pos hk, if_pos hk]
    · rw [if_neg hk, if_neg hk]
      exact lookupField_append rest l k

/-- `setdefault` at the key itself: the existing value if present, the
supplied default otherwise. -/
theorem setDefaultField_lookup_self (fs : List (String × Json)) (k : String) (v : Json) :
    lookupField (setDefaultField fs k v) k = some ((lookupField fs k).getD v) := by
  unfold setDefaultField
  cases hl : lookupField fs k with
  | some w => simp [hl]
  | none => simp [lookupField_append, hl, lookupField]

/-- `setdefault` leaves other keys' lookups unchanged. -/
theorem setDefaultField_lookup_ne (fs : List (String × Json)) (k k2 : String) (v : Json)
    (hne : ¬ k2 = k) :
    lookupField (setDefaultField fs k v) k2 = lookupField fs k2 := by
  unfold setDefaultField
  cases hl : lookupField fs k with
  | some w => rfl
  | none =>
    rw [lookupField_append]
    cases h2 : lookupField fs k2 with
    | some w => rfl
    | none =>
      simp only [lookupField]
      rw [if_neg (fun hk => hne hk.symm)]

/-- The tag-spec `setdefault` pair: `"default"` becomes the existing value
or the tag value, `"title"` the existing value or the capitalized tag
field name, and every other key is untouched. -/
theorem applyTagDefaults_lookup (ts : List (String × Json)) (v : Json) (ttl : String) :
    lookupField (applyTagDefaults ts v ttl) "default" = some ((lookupField ts "default").getD v) ∧
    lookupField (applyTagDefaults ts v ttl) "title" =
      some ((lookupField ts "title").getD (.str ttl)) ∧
    (∀ k, ¬ k = "default" → ¬ k = "title" →
      lookupField (applyTagDefaults ts v ttl) k = lookupField ts k) := by
  unfold applyTagDefaults
  refine ⟨?_, ?_, ?_⟩
  · rw [setDefaultField_lookup_ne _ _ _ _ (by decide),
      setDefaultField_lookup_self]
  · rw [setDefaultField_lookup_self,
      setDefaultField_lookup_ne _ _ _ _ (by decide)]
  · intro k hkd hkt
    rw [setDefaultField_lookup_ne _ _ _ _ hkt, setDefaultField_lookup_ne _ _ _ _ hkd]

/-- A successful path update: the original path read succeeds, the update
function succeeds on the value read, and reading the updated document at
the path yields the function's result. -/
theorem updateAtPath_get :
    ∀ (p : List String) (doc doc2 : Json) (f : Json → Except String Json),
      updateAtPath doc p f = .ok doc2 →
      ∃ j j2, getAtPath doc p = .ok j ∧ f j = .ok j2 ∧ getAtPath doc2 p = .ok j2
  | [], doc, doc2, f, h => by
    refine ⟨doc, doc2, by simp [getAtPath], by simpa [updateAtPath] using h,
      by simp [getAtPath]⟩
  | k :: ks, doc, doc2, f, h => by
    cases doc with
    | obj fs =>
      simp only [updateAtPath] at h
      cases hl : lookupField fs k with
      | none =>
        simp only [hl] at h
        cases h
      | some v =>
        simp only [hl] at h
        cases hu : updateAtPath v ks f with
        | error e =>
          simp only [hu] at h
          cases h
        | ok v2 =>
          simp only [hu] at h
          cases h
          obtain ⟨j, j2, hg, hf, hg2⟩ := updateAtPath_get ks v v2 f hu
          exact ⟨j, j2, by simp [getAtPath, hl, hg],
            hf, by simp [getAtPath, lookupField_setField_self, hg2]⟩
    | null => simp [updateAtPath] at h
    | bool b => simp [updateAtPath] at h
    | num n => simp [updateAtPath] at h
    | str s => simp [updateAtPath] at h
    | arr l => simp [updateAtPath] at h

/-- An update below `definitions/x` leaves reads below `definitions/y`
(`y ≠ x`) unchanged. -/
theorem updateAtPath_preserve (doc doc2 : Json) (f : Json → Except String Json)
    (x y : String) (t1 t2 : List String) (hxy : ¬ y = x)
    (h : updateAtPath doc ("definitions" :: x :: t1) f = .ok doc2) :
    getAtPath doc2 ("definitions" :: y :: t2) = getAtPath doc ("definitions" :: y :: t2) := by
  cases doc with
  | obj fs =>
    simp only [updateAtPath] at h
    cases hl : lookupField fs "definitions" with
    | none =>
      simp only [hl] at h
      cases h
    | some v =>
      simp only [hl] at h
      cases hu : updateAtPath v (x :: t1) f with
      | error e =>
        simp only [hu] at h
        cases h
      | ok v2 =>
        simp only [hu] at h
        cases h
        simp only [getAtPath, lookupField_setField_self, hl]
        cases v with
        | obj gfs =>
          simp only [updateAtPath] at hu
          cases hl2 : lookupField gfs x with
          | none =>
            simp only [hl2] at hu
            cases hu
          | some w =>
            simp only [hl2] at hu
            cases hu2 : updateAtPath w t1 f with
            | error e =>
              simp only [hu2] at hu
              cases hu
            | ok w2 =>
              simp only [hu2] at hu
              cases hu
              simp only [getAtPath, lookupField_setField_ne gfs x y w2 hxy]
        | null => simp [updateAtPath] at hu
        | bool b => simp [updateAtPath] at hu
        | num n => simp [updateAtPath] at hu
        | str s => simp [updateAtPath] at hu
        | arr l => simp [updateAtPath] at hu
  | null => simp [updateAtPath] at h
  | bool b => simp [updateAtPath] at h
  | num n => simp [updateAtPath] at h
  | str s => simp [updateAtPath] at h
  | arr l => simp [updateAtPath] at h

/-- The discriminated-union variant loop applies the tag-spec
`setdefault` pair to every variant: reference members through the
document (their `definitions` entry's tag spec is rewritten with
`applyTagDefaults`), anonymous members in the extracted definition
registered under their `_make_spec_name` name.  Stated for pairwise
distinct reference targets and extracted names; the loop also never
touches `definitions` entries no reference member resolves to, and
preserves accumulated definitions under distinct names. -/
theorem processVariants_tag_defaults (d tagTitle specName : String) :
    ∀ (members : List (Option (String × List String) × Json)) (doc : Json)
      (newDefs : List (String × Json)) (discMap : List (String × String))
      (docF : Json) (ndF : List (String × Json)) (mpF : List (String × String))
      (slots : List Json),
    processVariants d tagTitle specName doc newDefs discMap members =
      .ok (docF, ndF, mpF, slots) →
    (∀ p ∈ members, ∀ r rp m, p = (some (r, rp), m) → ∃ x, rp = ["definitions", x]) →
    List.Pairwise (fun a b =>
      (∀ x1 x2, refDefName a = some x1 → refDefName b = some x2 → ¬ x1 = x2) ∧
      (∀ n1 n2, anonSpecName d specName a = some n1 →
        anonSpecName d specName b = some n2 → ¬ n1 = n2)) members →
    (∀ y t, (∀ p ∈ members, ∀ x, refDefName p = some x → ¬ x = y) →
      getAtPath docF ("definitions" :: y :: t) = getAtPath doc ("definitions" :: y :: t)) ∧
    (∀ k v, lookupField newDefs k = some v →
      (∀ p ∈ members, ∀ n, anonSpecName d specName p = some n → ¬ n = k) →
      lookupField ndF k = some v) ∧
    (∀ p ∈ members,
      (∀ r rp m, p = (some (r, rp), m) → ∃ ts tv,
        getAtPath doc (rp ++ ["properties", d]) = .ok (.obj ts) ∧
        lookupField ts "const" = some (.str tv) ∧
        getAtPath docF (rp ++ ["properties", d]) =
          .ok (.obj (applyTagDefaults ts (.str tv) tagTitle))) ∧
      (∀ m, p = (none, m) → ∃ mF props ts tv nsn,
        m = .obj mF ∧ lookupField mF "properties" = some (.obj props) ∧
        lookupField props d = some (.obj ts) ∧
        lookupField ts "const" = some (.str tv) ∧
        makeSpecName specName tv = .ok nsn ∧
        lookupField ndF nsn = some (.obj (setField mF "properties" (.obj (setField props d
          (.obj (applyTagDefaults ts (.str tv) tagTitle))))))))
  | [], doc, newDefs, discMap, docF, ndF, mpF, slots, h, href, hdist => by
    simp only [processVariants] at h
    cases h
    refine ⟨fun y t _ => rfl, fun k v hkv _ => hkv, ?_⟩
    intro p hp
    simp at hp
  | (some (r, rp), m) :: rest, doc, newDefs, discMap, docF, ndF, mpF, slots,
      h, href, hdist => by
    obtain ⟨x, hrpx⟩ := href _ (List.mem_cons_self _ _) r rp m rfl
    subst hrpx
    obtain ⟨hrel, hrest⟩ := List.pairwise_cons.mp hdist
    have href' : ∀ p ∈ rest, ∀ r2 rp2 m2, p = (some (r2, rp2), m2) →
        ∃ x2, rp2 = ["definitions", x2] :=
      fun p hp => href p (List.mem_cons_of_mem _ hp)
    have hrefhead : refDefName (some (r, ["definitions", x]), m) = some x := by
      simp [refDefName]
    simp only [processVariants] at h
    cases hg : getAtPath doc (["definitions", x] ++ ["properties", d]) with
    | error e =>
      simp only [hg] at h
      cases h
    | ok tagSpecJ =>
      cases tagSpecJ with
      | null => simp only [hg] at h; cases h
      | bool b => simp only [hg] at h; cases h
      | num n => simp only [hg] at h; cases h
      | str s => simp only [hg] at h; cases h
      | arr l => simp only [hg] at h; cases h
      | obj tagSpec =>
        cases hc : lookupField tagSpec "const" with
        | none => simp only [hg, hc] at h; cases h
        | some tagValue =>
          cases tagValue with
          | null => simp only [hg, hc] at h; cases h
          | bool b => simp only [hg, hc] at h; cases h
          | num n => simp only [hg, hc] at h; cases h
          | arr l => simp only [hg, hc] at h; cases h
          | obj o => simp only [hg, hc] at h; cases h
          | str tvs =>
            simp only [hg, hc] at h
            split at h
            · cases h
            · rename_i doc2 hupd
              split at h
              · cases h
              · rename_i doc3 nd mp slots2 hrec
                cases h
                have IH := processVariants_tag_defaults d tagTitle specName rest doc2
                  newDefs (setStrField discMap tvs r) docF ndF mpF slots2 hrec href' hrest
                have hxne : ∀ p ∈ rest, ∀ x2, refDefName p = some x2 → ¬ x2 = x := by
                  intro p hp x2 hx2
                  exact fun he => (hrel p hp).1 x x2 hrefhead hx2 he.symm
                obtain ⟨j, j2, hgj, hfj, hgj2⟩ := updateAtPath_get _ _ _ _ hupd
                rw [hg] at hgj
                cases hgj
                simp only at hfj
                cases hfj
                refine ⟨?_, ?_, ?_⟩
                · intro y t hy
                  rw [IH.1 y t (fun p hp => hy p (List.mem_cons_of_mem _ hp)),
                    updateAtPath_preserve doc doc2 _ x y _ t
                      (fun he => hy _ (List.mem_cons_self _ _) x hrefhead he.symm) hupd]
                · intro k v hkv hall
                  exact IH.2.1 k v hkv (fun p hp => hall p (List.mem_cons_of_mem _ hp))
                · intro p hp
                  rcases List.mem_cons.mp hp with rfl | hp
                  · refine ⟨?_, ?_⟩
                    · intro r2 rp2 m2 heq
                      cases heq
                      refine ⟨tagSpec, tvs, hg, hc, ?_⟩
                      exact (show getAtPath docF (["definitions", x] ++ ["properties", d]) =
                          getAtPath doc2 (["definitions", x] ++ ["properties", d]) from
                        IH.1 x ["properties", d] (fun p hp => hxne p hp)).trans hgj2
                    · intro m2 heq
                      cases heq
                  · have hmem := IH.2.2 p hp
                    refine ⟨?_, hmem.2⟩
                    intro r2 rp2 m2 heq
                    obtain ⟨ts, tv, hgd2, hconst, hgF⟩ := hmem.1 r2 rp2 m2 heq
                    obtain ⟨x2, hrp2⟩ := href' p hp r2 rp2 m2 heq
                    subst hrp2
                    refine ⟨ts, tv, ?_, hconst, hgF⟩
                    have hpres : getAtPath doc2 (["definitions", x2] ++ ["properties", d]) =
                        getAtPath doc (["definitions", x2] ++ ["properties", d]) :=
                      updateAtPath_preserve doc doc2 _ x x2 _ ["properties", d]
                        (fun he => (hrel p hp).1 x x2 hrefhead
                          (by cases heq; simp [refDefName]) he.symm) hupd
                    rw [← hpres]
                    exact hgd2
  | (none, m) :: rest, doc, newDefs, discMap, docF, ndF, mpF, slots,
      h, href, hdist => by
    obtain ⟨hrel, hrest⟩ := List.pairwise_cons.mp hdist
    have href' : ∀ p ∈ rest, ∀ r2 rp2 m2, p = (some (r2, rp2), m2) →
        ∃ x2, rp2 = ["definitions", x2] :=
      fun p hp => href p (List.mem_cons_of_mem _ hp)
    simp only [processVariants] at h
    cases m with
    | null => simp only at h; cases h
    | bool b => simp only at h; cases h
    | num n => simp only at h; cases h
    | str s => simp only at h; cases h
    | arr l => simp only at h; cases h
    | obj mF =>
      cases hprops : lookupField mF "properties" with
      | none => simp only [hprops] at h; cases h
      | some propsJ =>
        cases propsJ with
        | null => simp only [hprops] at h; cases h
        | bool b => simp only [hprops] at h; cases h
        | num n => simp only [hprops] at h; cases h
        | str s => simp only [hprops] at h; cases h
        | arr l => simp only [hprops] at h; cases h
        | obj props =>
          cases hd : lookupField props d with
          | none => simp only [hprops, hd] at h; cases h
          | some tagSpecJ =>
            cases tagSpecJ with
            | null => simp only [hprops, hd] at h; cases h
            | bool b => simp only [hprops, hd] at h; cases h
            | num n => simp only [hprops, hd] at h; cases h
            | str s => simp only [hprops, hd] at h; cases h
            | arr l => simp only [hprops, hd] at h; cases h
            | obj tagSpec =>
              cases hc : lookupField tagSpec "const" with
              | none => simp only [hprops, hd, hc] at h; cases h
              | some tagValue =>
                cases tagValue with
                | null => simp only [hprops, hd, hc] at h; cases h
                | bool b => simp only [hprops, hd, hc] at h; cases h
                | num n => simp only [hprops, hd, hc] at h; cases h
                | arr l => simp only [hprops, hd, hc] at h; cases h
                | obj o => simp only [hprops, hd, hc] at h; cases h
                | str tvs =>
                  cases hmk : makeSpecName specName tvs with
                  | error e => simp only [hprops, hd, hc, hmk] at h; cases h
                  | ok nsn =>
                    simp only [hprops, hd, hc, hmk] at h
                    split at h
                    · cases h
                    · rename_i doc3 nd mp slots2 hrec
                      cases h
                      have hanonhead : anonSpecName d specName (none, Json.obj mF) = some nsn := by
                        simp [anonSpecName, hprops, hd, hc, hmk]
                      have IH := processVariants_tag_defaults d tagTitle specName rest doc
                        (setField newDefs nsn (.obj (setField mF "properties" (.obj (setField props d
                          (.obj (applyTagDefaults tagSpec (.str tvs) tagTitle)))))))
                        (setStrField discMap tvs ("#/definitions/" ++ nsn))
                        docF ndF mpF slots2 hrec href' hrest
                      have hnne : ∀ p ∈ rest, ∀ n2, anonSpecName d specName p = some n2 →
                          ¬ n2 = nsn := by
                        intro p hp n2 hn2
                        exact fun he => (hrel p hp).2 nsn n2 hanonhead hn2 he.symm
                      refine ⟨fun y t hy => IH.1 y t
                        (fun p hp => hy p (List.mem_cons_of_mem _ hp)), ?_, ?_⟩
                      · intro k v hkv hall
                        refine IH.2.1 k v ?_ (fun p hp => hall p (List.mem_cons_of_mem _ hp))
                        rw [lookupField_setField_ne _ _ _ _
                          (fun he => hall _ (List.mem_cons_self _ _) nsn hanonhead he.symm)]
                        exact hkv
                      · intro p hp
                        rcases List.mem_cons.mp hp with rfl | hp
                        · refine ⟨?_, ?_⟩
                          · intro r2 rp2 m2 heq
                            cases heq
                          · intro m2 heq
                            cases heq
                            refine ⟨mF, props, tagSpec, tvs, nsn, rfl, hprops, hd, hc, hmk, ?_⟩
                            refine IH.2.1 nsn _ ?_ (fun p hp n2 hn2 => hnne p hp n2 hn2)
                            exact lookupField_setField_self _ _ _
                        · exact IH.2.2 p hp

/-- C9: discriminated-union tag defaults.  When the variant loop of a
discriminated union succeeds (distinct reference targets and extracted
names), each variant's tag-field subschema is rewritten with exactly the
`setdefault` pair: its `"default"` key becomes the variant's constant tag
value and its `"title"` key the capitalized tag-field name, in each case
only when the key was absent — existing `"default"`/`"title"` values are
never overwritten, and no other key of the tag spec changes.  Reference
members are updated through the document, anonymous members inside the
definition registered under their generated name. -/
theorem c9_tag_defaults (d specName : String)
    (members : List (Option (String × List String) × Json)) (doc : Json)
    (docF : Json) (ndF : List (String × Json)) (mpF : List (String × String))
    (slots : List Json)
    (h : processVariants d (pyCapitalize d) specName doc [] [] members =
      .ok (docF, ndF, mpF, slots))
    (href : ∀ p ∈ members, ∀ r rp m, p = (some (r, rp), m) →
      ∃ x, rp = ["definitions", x])
    (hdist : List.Pairwise (fun a b =>
      (∀ x1 x2, refDefName a = some x1 → refDefName b = some x2 → ¬ x1 = x2) ∧
      (∀ n1 n2, anonSpecName d specName a = some n1 →
        anonSpecName d specName b = some n2 → ¬ n1 = n2)) members) :
    (∀ ts v ttl,
      lookupField (applyTagDefaults ts v ttl) "default" =
        some ((lookupField ts "default").getD v) ∧
      lookupField (applyTagDefaults ts v ttl) "title" =
        some ((lookupField ts "title").getD (.str ttl)) ∧
      (∀ k, ¬ k = "default" → ¬ k = "title" →
        lookupField (applyTagDefaults ts v ttl) k = lookupField ts k)) ∧
    (∀ p ∈ members,
      (∀ r rp m, p = (some (r, rp), m) → ∃ ts tv,
        getAtPath doc (rp ++ ["properties", d]) = .ok (.obj ts) ∧
        lookupField ts "const" = some (.str tv) ∧
        getAtPath docF (rp ++ ["properties", d]) =
          .ok (.obj (applyTagDefaults ts (.str tv) (pyCapitalize d)))) ∧
      (∀ m, p = (none, m) → ∃ mF props ts tv nsn,
        m = .obj mF ∧ lookupField mF "properties" = some (.obj props) ∧
        lookupField props d = some (.obj ts) ∧
        lookupField ts "const" = some (.str tv) ∧
        makeSpecName specName tv = .ok nsn ∧
        lookupField ndF nsn = some (.obj (setField mF "properties" (.obj (setField props d
          (.obj (applyTagDefaults ts (.str tv) (pyCapitalize d))))))))) :=
  ⟨fun ts v ttl => applyTagDefaults_lookup ts v ttl,
   (processVariants_tag_defaults d (pyCapitalize d) specName members doc [] []
     docF ndF mpF slots h href hdist).2.2⟩

/-- C9 witness: the tag-defaults theorem applied to a concrete
discriminated union with one reference member (no default/title yet) and
one anonymous member (title already present, kept). -/
theorem c9_tag_defaults_witness :
    processVariants "type" (pyCapitalize "type") "spec" c9WitnessDoc [] [] c9WitnessMembers =
      .ok (c9WitnessDocOut, c9WitnessDefsOut,
        [("a", "#/definitions/refVariant"), ("b", "#/definitions/specB")],
        [.obj [("$ref", .str "#/definitions/refVariant")],
         .obj [("$ref", .str "#/definitions/specB")]]) ∧
    ((∀ ts v ttl,
      lookupField (applyTagDefaults ts v ttl) "default" =
        some ((lookupField ts "default").getD v) ∧
      lookupField (applyTagDefaults ts v ttl) "title" =
        some ((lookupField ts "title").getD (.str ttl)) ∧
      (∀ k, ¬ k = "default" → ¬ k = "title" →
        lookupField (applyTagDefaults ts v ttl) k = lookupField ts k)) ∧
    (∀ p ∈ c9WitnessMembers,
      (∀ r rp m, p = (some (r, rp), m) → ∃ ts tv,
        getAtPath c9WitnessDoc (rp ++ ["properties", "type"]) = .ok (.obj ts) ∧
        lookupField ts "const" = some (.str tv) ∧
        getAtPath c9WitnessDocOut (rp ++ ["properties", "type"]) =
          .ok (.obj (applyTagDefaults ts (.str tv) (pyCapitalize "type")))) ∧
      (∀ m, p = (none, m) → ∃ mF props ts tv nsn,
        m = .obj mF ∧ lookupField mF "properties" = some (.obj props) ∧
        lookupField props "type" = some (.obj ts) ∧
        lookupField ts "const" = some (.str tv) ∧
        makeSpecName "spec" tv = .ok nsn ∧
        lookupField c9WitnessDefsOut nsn =
          some (.obj (setField mF "properties" (.obj (setField props "type"
            (.obj (applyTagDefaults ts (.str tv) (pyCapitalize "type")))))))))) :=
  ⟨rfl,
   c9_tag_defaults "type" "spec" c9WitnessMembers c9WitnessDoc c9WitnessDocOut
     c9WitnessDefsOut
     [("a", "#/definitions/refVariant"), ("b", "#/definitions/specB")]
     [.obj [("$ref", .str "#/definitions/refVariant")],
      .obj [("$ref", .str "#/definitions/specB")]]
     rfl
     (by
       intro p hp r rp m heq
       simp only [c9WitnessMembers, List.mem_cons, List.mem_singleton] at hp
       rcases hp with rfl | rfl | hp
       · cases heq
         exact ⟨"refVariant", rfl⟩
       · cases heq
       · simp at hp)
     (by
       refine List.pairwise_cons.mpr ⟨?_, List.pairwise_singleton _ _⟩
       intro b hb
       simp only [List.mem_singleton] at hb
       subst hb
       constructor
       · intro x1 x2 h1 h2
         simp [refDefName] at h2
       · intro n1 n2 h1 h2
         simp [anonSpecName] at h1)⟩
